import Mathlib

/-!
Verification of the taste-intelligence core of the ceezaa-pilot backend.

The Python sources under `backend/app` are shallowly embedded:
* Python `float` arithmetic is modelled by exact rationals (`ℚ`); all the
  quantities involved (weights, percentages, scores) are small decimal
  constants, so the rational model is the intended real-number semantics of
  the code.
* Python `int` values that the code compares and decrements are modelled by
  `ℤ`; collection sizes by `ℕ`.
* Python `dict`s are modelled by association lists (`List (String × β)`),
  which, like CPython dicts, preserve insertion order; `dictSet` updates the
  first binding in place and appends a fresh key at the end, exactly the
  CPython semantics.
* Python `round` is round-half-to-even, modelled by `roundHalfEven`.
* `list.sort(key=..., reverse=True)` is a stable descending sort; a stable
  sort by a key is extensionally unique, so an insertion sort with the same
  stability is a faithful model.
-/

namespace Ceezaa

/-- Python `round` on a rational: round half to even (banker's rounding). -/
def roundHalfEven (q : ℚ) : ℤ :=
  let f : ℤ := ⌊q⌋
  let r : ℚ := q - f
  if r < 1/2 then f
  else if 1/2 < r then f + 1
  else if f % 2 = 0 then f else f + 1

/-- Python dict lookup `d.get(k)` on an association list (first binding). -/
def dictGet {β : Type} (k : String) : List (String × β) → Option β
  | [] => none
  | (k', v) :: rest => if k' = k then some v else dictGet k rest

/-- Python dict lookup with default, `d.get(k, dflt)`. -/
def dictGetD {β : Type} (k : String) (dflt : β) (l : List (String × β)) : β :=
  (dictGet k l).getD dflt

/-- Python dict assignment `d[k] = v`: update the first binding in place,
append at the end when the key is fresh (CPython insertion-order model). -/
def dictSet {β : Type} (k : String) (v : β) : List (String × β) → List (String × β)
  | [] => [(k, v)]
  | (k', v') :: rest => if k' = k then (k, v) :: rest else (k', v') :: dictSet k v rest

/-- Number of distinct common elements, `len(set(a) & set(b))`. -/
def setOverlap (a b : List String) : ℕ :=
  (a.dedup.filter (fun x => x ∈ b)).length

/-- Python whitespace recognised by `str.strip()` (ASCII subset). -/
def isPySpace (c : Char) : Bool :=
  c = ' ' ∨ c = '\t' ∨ c = '\n' ∨ c = '\r' ∨ c = '\x0b' ∨ c = '\x0c'

/-- Python `str.strip()` with no argument: drop whitespace from both ends. -/
def pyStrip (s : String) : String :=
  String.mk (((s.data.dropWhile isPySpace).reverse.dropWhile isPySpace).reverse)

/-- ASCII lower-casing of one character (the strings this code lowers are
ASCII identifiers and tier names). -/
def asciiLower (c : Char) : Char :=
  if 'A' ≤ c ∧ c ≤ 'Z' then Char.ofNat (c.toNat + 32) else c

/-- ASCII upper-casing of one character. -/
def asciiUpper (c : Char) : Char :=
  if 'a' ≤ c ∧ c ≤ 'z' then Char.ofNat (c.toNat - 32) else c

/-- Python `str.lower()` on the ASCII domain used by this code base. -/
def pyLower (s : String) : String :=
  String.mk (s.data.map asciiLower)

/-- ASCII alphabetic test (`str.title()`'s cased/uncased distinction on the
category names this code formats). -/
def isAsciiAlpha (c : Char) : Bool :=
  ('a' ≤ c ∧ c ≤ 'z') ∨ ('A' ≤ c ∧ c ≤ 'Z')

/-- `a` starts with `b` on character lists. -/
def listStartsWith : List Char → List Char → Bool
  | _, [] => true
  | [], _ :: _ => false
  | c :: cs, p :: ps => c = p && listStartsWith cs ps

/-- Python `s.startswith(p)`. -/
def pyStartswith (s p : String) : Bool :=
  listStartsWith s.data p.data

/-- Replace every occurrence of the character `old` by the string `new`
(all of this code base's `str.replace` calls have a one-character
pattern). -/
def replaceChar (old : Char) (new : List Char) : List Char → List Char
  | [] => []
  | c :: cs => (if c = old then new else [c]) ++ replaceChar old new cs

/-- Python `s.replace(old, new)` for a one-character `old`. -/
def pyReplace1 (s : String) (old : Char) (new : String) : String :=
  String.mk (replaceChar old new.data s.data)

/-! ## `app/mappings/price_mappings.py` -/

/-- `USER_PRICE_LEVELS` table. -/
def USER_PRICE_LEVELS : List (String × ℤ) :=
  [("budget", 0), ("moderate", 1), ("premium", 2), ("luxury", 3)]

/-- `DOLLAR_SIGN_LEVELS` table. -/
def DOLLAR_SIGN_LEVELS : List (String × ℤ) :=
  [("$", 0), ("$$", 1), ("$$$", 2), ("$$$$", 3)]

/-- `PRICE_RANGE_LEVELS` table (en-dash and hyphen variants). -/
def PRICE_RANGE_LEVELS : List (String × ℤ) :=
  [("$1–10", 0), ("$10–20", 1), ("$20–30", 1), ("$30–50", 2), ("$50–100", 2),
   ("$100+", 3),
   ("$1-10", 0), ("$10-20", 1), ("$20-30", 1), ("$30-50", 2), ("$50-100", 2),
   ("$32.00", 2)]

/-- One character of an unsigned decimal literal. -/
def isDigitChar (c : Char) : Bool := c.isDigit

/-- Model of Python `float(s)` restricted to the plain decimal literals that
occur in price strings: optional sign, digits with at most one decimal
point, at least one digit.  Returns `none` where Python raises
`ValueError`.  (Exotic accepted spellings — exponents, `inf`, `nan`,
underscore separators — are outside the price-string domain and modelled as
unparseable.) -/
def parseFloat (s : String) : Option ℚ :=
  let chars := s.toList
  let chars := match chars with
    | '+' :: rest => rest
    | rest => rest
  let (neg, chars) := match chars with
    | '-' :: rest => (true, rest)
    | rest => (false, rest)
  let intPart := chars.takeWhile isDigitChar
  let rest := chars.dropWhile isDigitChar
  let ok (fracDigits : List Char) (rest' : List Char) : Option ℚ :=
    if rest' ≠ [] then none
    else if intPart = [] ∧ fracDigits = [] then none
    else
      let digitsVal (ds : List Char) : ℕ :=
        ds.foldl (fun acc c => acc * 10 + (c.toNat - '0'.toNat)) 0
      let ip : ℚ := (digitsVal intPart : ℕ)
      let fp : ℚ := (digitsVal fracDigits : ℕ) / (10 ^ fracDigits.length : ℕ)
      let v := ip + fp
      some (if neg then -v else v)
  match rest with
  | [] => ok [] []
  | '.' :: rest2 =>
      let fracDigits := rest2.takeWhile isDigitChar
      ok fracDigits (rest2.dropWhile isDigitChar)
  | _ => ok [] rest

/-- `normalize_venue_price(price_str)`: any venue price format → level 0-3,
default 1 (moderate).  `none` and the empty string are Python-falsy. -/
def normalize_venue_price (price_str : Option String) : ℤ :=
  match price_str with
  | none => 1
  | some s0 =>
    if s0 = "" then 1
    else
      let s := pyStrip s0
      match dictGet s DOLLAR_SIGN_LEVELS with
      | some lvl => lvl
      | none =>
        match dictGet s PRICE_RANGE_LEVELS with
        | some lvl => lvl
        | none =>
          if pyStartswith s "$" ∧ ¬ pyStartswith s "$$" then
            match parseFloat (pyReplace1 (pyReplace1 s '$' "") ',' "") with
            | some amount =>
                if amount < 15 then 0
                else if amount < 40 then 1
                else if amount < 80 then 2
                else 3
            | none => 1
          else 1

/-- `normalize_user_price(user_tier)`: user tier → level 0-3, default 1. -/
def normalize_user_price (user_tier : Option String) : ℤ :=
  match user_tier with
  | none => 1
  | some s => if s = "" then 1 else dictGetD (pyLower s) 1 USER_PRICE_LEVELS

/-- `calculate_price_match(user_tier, venue_price)`: tier-distance score. -/
def calculate_price_match (user_tier venue_price : Option String) : ℚ :=
  let user_level := normalize_user_price user_tier
  let venue_level := normalize_venue_price venue_price
  let diff := |user_level - venue_level|
  if diff = 0 then 1
  else if diff = 1 then 1/2
  else 0

/-! ## `app/intelligence/taste_fusion.py`: weights and confidence -/

/-- `TasteFusion._calculate_weights`: `(tx_weight, quiz_weight)` from the
transaction count, for a given `max_tx_weight` configuration. -/
def calculate_weights (max_tx_weight : ℚ) (transaction_count : ℕ) : ℚ × ℚ :=
  if transaction_count = 0 then (0, 1)
  else
    let tx_weight := min ((transaction_count : ℚ) / 50) max_tx_weight
    (tx_weight, 1 - tx_weight)

/-- `TasteFusion._calculate_confidence`. -/
def calculate_confidence (transaction_count : ℕ) : ℚ :=
  if transaction_count = 0 then 0
  else if transaction_count ≥ 100 then 1
  else 1/10 + ((transaction_count : ℚ) / 100) * (9/10)

/-- Generic stable descending insertion by an integer key: an element goes
before the first strictly smaller key and after equal-or-larger keys. -/
def insertDescBy {α : Type} (key : α → ℤ) (x : α) : List α → List α
  | [] => [x]
  | y :: ys => if key x ≥ key y then x :: y :: ys else y :: insertDescBy key x ys

/-- Stable descending sort by an integer key, extensionally equal to
Python's stable `list.sort(key=..., reverse=True)`. -/
def sortDescBy {α : Type} (key : α → ℤ) (l : List α) : List α :=
  l.foldr (insertDescBy key) []

/-! ## `app/intelligence/aggregation_engine.py` -/

/-- `ProcessedTransaction` (`app/models/plaid.py`).  `timestamp` is modelled
by its calendar-day number (an integer); the engine only ever takes the
timestamp's date and subtracts dates in whole days, and `time_bucket` /
`day_type` are separate precomputed fields. -/
structure ProcessedTransaction where
  id : String
  amount : ℚ
  timestamp : ℤ
  merchant_name : String
  merchant_id : Option String := none
  taste_category : String
  time_bucket : String
  day_type : String
  payment_channel : String := "in store"
  pending : Bool := false
  deriving Repr, DecidableEq

/-- Python `txn.merchant_id or txn.merchant_name`, then the engines' guard
`if not merchant_key` / `if merchant_key`: `none` and the empty string are
falsy.  Returns the truthy merchant key, if any. -/
def merchantKey (txn : ProcessedTransaction) : Option String :=
  let k := match txn.merchant_id with
    | some s => if s = "" then txn.merchant_name else s
    | none => txn.merchant_name
  if k = "" then none else some k

/-- `CategoryStats` dataclass. -/
structure CategoryStats where
  count : ℤ := 0
  total_spend : ℚ := 0
  merchants : List String := []
  deriving Repr, DecidableEq

/-- `StreakData` dataclass. -/
structure StreakData where
  current : ℤ := 0
  longest : ℤ := 0
  last_date : Option ℤ := none
  deriving Repr, DecidableEq

/-- `ExplorationData` dataclass. -/
structure ExplorationData where
  unique : ℤ := 0
  total : ℤ := 0
  seen_merchants : List String := []
  deriving Repr, DecidableEq

/-- An entry of the `top_merchants` list (a Python dict with keys
`merchant_id`, `merchant_name`, `count`). -/
structure TopMerchant where
  merchant_id : String
  merchant_name : String
  count : ℤ
  deriving Repr, DecidableEq

/-- `UserAnalysis` dataclass.

The Python dataclass declares no `top_cuisines` field; `app/routers/taste.py`
assigns one dynamically (`user_analysis.top_cuisines = ...`) before calling
the fusion engine.  The optional `top_cuisines_attr` models that dynamic
attribute: `none` means the attribute is absent, in which case Python
attribute access raises `AttributeError`. -/
structure UserAnalysis where
  user_id : String
  categories : List (String × CategoryStats) := []
  time_buckets : List (String × ℤ) := []
  day_types : List (String × ℤ) := []
  merchant_visits : List (String × ℤ) := []
  top_merchants : List TopMerchant := []
  streaks : List (String × StreakData) := []
  exploration : List (String × ExplorationData) := []
  total_transactions : ℕ := 0
  first_transaction_at : Option ℤ := none
  last_transaction_at : Option ℤ := none
  version : ℕ := 0
  top_cuisines_attr : Option (List String) := none
  deriving Repr, DecidableEq

/-- Python `set.add` on the list model: insert if not already present. -/
def setAdd (x : String) (l : List String) : List String :=
  if x ∈ l then l else l ++ [x]

/-- The effect of `AggregationEngine._update_category` on the
`categories` dict (the only field that method touches). -/
def categoryStep (txn : ProcessedTransaction) (m : List (String × CategoryStats)) :
    List (String × CategoryStats) :=
  let category := txn.taste_category
  let stats := dictGetD category {} m
  let stats := { stats with
    count := stats.count + 1
    total_spend := stats.total_spend + txn.amount }
  let stats := match merchantKey txn with
    | some k => { stats with merchants := setAdd k stats.merchants }
    | none => stats
  dictSet category stats m

/-- `AggregationEngine._update_category`. -/
def update_category (txn : ProcessedTransaction) (a : UserAnalysis) : UserAnalysis :=
  { a with categories := categoryStep txn a.categories }

/-- `AggregationEngine._update_time_bucket`. -/
def update_time_bucket (txn : ProcessedTransaction) (a : UserAnalysis) : UserAnalysis :=
  { a with time_buckets :=
      dictSet txn.time_bucket (dictGetD txn.time_bucket 0 a.time_buckets + 1) a.time_buckets }

/-- `AggregationEngine._update_day_type`. -/
def update_day_type (txn : ProcessedTransaction) (a : UserAnalysis) : UserAnalysis :=
  { a with day_types :=
      dictSet txn.day_type (dictGetD txn.day_type 0 a.day_types + 1) a.day_types }

/-- `min(m["count"] for m in tm)` (the code only evaluates it on a
non-empty list; `0` is an arbitrary value for the empty case). -/
def minCountOf : List TopMerchant → ℤ
  | [] => 0
  | [m] => m.count
  | m :: rest => min m.count (minCountOf rest)

/-- First index attaining the minimum count,
`min(range(len(tm)), key=lambda i: tm[i]["count"])` — Python's `min`
returns the first index whose count equals the minimum (the code only
evaluates it on a non-empty list). -/
def argminCountIdx (tm : List TopMerchant) : ℕ :=
  tm.findIdx (fun m => m.count = minCountOf tm)

/-- Update the first entry whose `merchant_id` equals `key` to carry
`cnt` (the for-loop + in-place update in `_rebuild_top_merchants`). -/
def updateFirstCount (key : String) (cnt : ℤ) : List TopMerchant → List TopMerchant
  | [] => []
  | m :: ms =>
      if m.merchant_id = key then { m with count := cnt } :: ms
      else m :: updateFirstCount key cnt ms

/-- `AggregationEngine._rebuild_top_merchants` acting on the list alone:
`limit` is the engine's `top_merchants_limit`, `current_count` the already
incremented `merchant_visits[merchant_key]`. -/
def rebuild_top_merchants (limit : ℕ) (merchant_key merchant_name : String)
    (current_count : ℤ) (tm : List TopMerchant) : List TopMerchant :=
  let newEntry : TopMerchant :=
    { merchant_id := merchant_key, merchant_name := merchant_name, count := current_count }
  let tm' :=
    if (tm.find? (fun m => m.merchant_id = merchant_key)).isSome then
      updateFirstCount merchant_key current_count tm
    else if tm.length < limit then
      tm ++ [newEntry]
    else
      let min_count := minCountOf tm
      if current_count > min_count then
        let kept := tm.filter (fun m => m.count > min_count ∨ some m = tm.getLast?)
        let kept :=
          if kept.length ≥ limit then kept.eraseIdx (argminCountIdx kept) else kept
        kept ++ [newEntry]
      else tm
  sortDescBy (fun m => m.count) tm'

/-- The effect of `AggregationEngine._update_merchant_visits` on the pair
(`merchant_visits`, `top_merchants`), the only fields that method touches:
guard on the merchant key, increment the visit count, rebuild the top
list. -/
def visitsTmStep (limit : ℕ) (txn : ProcessedTransaction)
    (p : List (String × ℤ) × List TopMerchant) : List (String × ℤ) × List TopMerchant :=
  match merchantKey txn with
  | none => p
  | some key =>
    let visits := dictGetD key 0 p.1 + 1
    (dictSet key visits p.1, rebuild_top_merchants limit key txn.merchant_name visits p.2)

/-- `AggregationEngine._update_merchant_visits`. -/
def update_merchant_visits (limit : ℕ) (txn : ProcessedTransaction)
    (a : UserAnalysis) : UserAnalysis :=
  let p := visitsTmStep limit txn (a.merchant_visits, a.top_merchants)
  { a with merchant_visits := p.1, top_merchants := p.2 }

/-- The effect of `AggregationEngine._update_exploration` on the
`exploration` dict.  Note the early return: a transaction without a
merchant key skips the whole update, `total` included. -/
def explorationStep (txn : ProcessedTransaction)
    (m : List (String × ExplorationData)) : List (String × ExplorationData) :=
  match merchantKey txn with
  | none => m
  | some key =>
    let exp := dictGetD txn.taste_category {} m
    let exp := { exp with total := exp.total + 1 }
    let exp :=
      if key ∈ exp.seen_merchants then exp
      else { exp with seen_merchants := setAdd key exp.seen_merchants, unique := exp.unique + 1 }
    dictSet txn.taste_category exp m

/-- `AggregationEngine._update_exploration`. -/
def update_exploration (txn : ProcessedTransaction) (a : UserAnalysis) : UserAnalysis :=
  { a with exploration := explorationStep txn a.exploration }

/-- The streak state machine on one `StreakData` record for a transaction
dated `d` (the body of `_update_streaks` after the lookup). -/
def streakStep (s : StreakData) (d : ℤ) : StreakData :=
  match s.last_date with
  | none => { s with current := 1, longest := 1, last_date := some d }
  | some last =>
    let days_diff := d - last
    if days_diff = 0 then s
    else if days_diff = 1 then
      { s with current := s.current + 1,
               longest := max s.longest (s.current + 1),
               last_date := some d }
    else
      { s with current := 1, last_date := some d }

/-- The effect of `AggregationEngine._update_streaks` on the `streaks`
dict: apply the state machine to the category's record. -/
def streaksMapStep (txn : ProcessedTransaction)
    (m : List (String × StreakData)) : List (String × StreakData) :=
  dictSet txn.taste_category (streakStep (dictGetD txn.taste_category {} m) txn.timestamp) m

/-- `AggregationEngine._update_streaks`. -/
def update_streaks (txn : ProcessedTransaction) (a : UserAnalysis) : UserAnalysis :=
  { a with streaks := streaksMapStep txn a.streaks }

/-- `AggregationEngine._update_metadata`. -/
def update_metadata (txn : ProcessedTransaction) (a : UserAnalysis) : UserAnalysis :=
  { a with
    total_transactions := a.total_transactions + 1
    first_transaction_at :=
      match a.first_transaction_at with
      | none => some txn.timestamp
      | some t => some t
    last_transaction_at := some txn.timestamp }

/-- `AggregationEngine.ingest`: the seven sub-updates in source order. -/
def ingest (limit : ℕ) (txn : ProcessedTransaction) (a : UserAnalysis) : UserAnalysis :=
  update_metadata txn
    (update_streaks txn
      (update_exploration txn
        (update_merchant_visits limit txn
          (update_day_type txn
            (update_time_bucket txn
              (update_category txn a))))))

/-- Ingest a whole transaction list in order. -/
def ingestAll (limit : ℕ) (txs : List ProcessedTransaction) (a : UserAnalysis) : UserAnalysis :=
  txs.foldl (fun acc t => ingest limit t acc) a

/-- A fresh aggregate, `UserAnalysis(user_id=uid)`: all fields default. -/
def freshAnalysis (uid : String) : UserAnalysis := { user_id := uid }

/-! ## `app/intelligence/taste_fusion.py`: category scores and `fuse` -/

/-- `CATEGORY_COLORS` table. -/
def CATEGORY_COLORS : List (String × String) :=
  [("coffee", "#8B4513"), ("dining", "#D4AF37"), ("nightlife", "#4B0082"),
   ("entertainment", "#FF6347"), ("fitness", "#32CD32"), ("shopping", "#FF69B4"),
   ("groceries", "#228B22"), ("fast_food", "#FF8C00"), ("travel", "#4169E1"),
   ("other", "#808080")]

/-- Python `str.title()`: uppercase the first letter of each alphabetic run,
lowercase the rest. -/
def pyTitle (s : String) : String :=
  String.mk ((s.data.foldl
    (fun (st : List Char × Bool) c =>
      if isAsciiAlpha c then (st.1 ++ [if st.2 then asciiLower c else asciiUpper c], true)
      else (st.1 ++ [c], false))
    ([], false)).1)

/-- `format_category_name`: replace underscores, title case. -/
def format_category_name (name : String) : String :=
  pyTitle (pyReplace1 name '_' " ")

/-- `CategoryScore` dataclass. -/
structure CategoryScore where
  name : String
  percentage : ℤ
  color : String
  count : ℤ := 0
  total_spend : ℚ := 0
  deriving Repr, DecidableEq

/-- The per-category score records built inside `_build_category_scores`
before sorting: `percentage = round(count / total_count * 100)`, colour by
table with the gray default. -/
def rawCategoryScores (observed : UserAnalysis) : List CategoryScore :=
  observed.categories.map (fun p =>
    { name := format_category_name p.1
      percentage := roundHalfEven (((p.2.count : ℚ) / (observed.total_transactions : ℚ)) * 100)
      color := dictGetD p.1 "#808080" CATEGORY_COLORS
      count := p.2.count
      total_spend := p.2.total_spend })

/-- The closing fix-up of `_build_category_scores`: if the rounded
percentages do not sum to 100, add the signed difference to the first
(largest) bucket. -/
def adjustTo100 (scores : List CategoryScore) : List CategoryScore :=
  let total_pct := (scores.map (fun s => s.percentage)).sum
  match scores with
  | [] => []
  | s0 :: rest =>
      if total_pct ≠ 100 then
        { s0 with percentage := s0.percentage + (100 - total_pct) } :: rest
      else s0 :: rest

/-- `TasteFusion._build_category_scores`. -/
def build_category_scores (observed : UserAnalysis) : List CategoryScore :=
  if observed.total_transactions = 0 ∨ observed.categories = [] then []
  else adjustTo100 (sortDescBy (fun s => s.percentage) (rawCategoryScores observed))

/-- `TasteFusion._calculate_exploration_ratio`: distinct merchant keys over
total transactions (`len(observed.merchant_visits)` counts the dict's
keys, which is the association list's length). -/
def calculate_exploration_ratio (observed : UserAnalysis) : ℚ :=
  if observed.total_transactions = 0 then 0
  else (observed.merchant_visits.length : ℚ) / (observed.total_transactions : ℚ)

/-- `DeclaredTaste` dataclass (`app/intelligence/quiz_processor.py`). -/
structure DeclaredTaste where
  vibe_preferences : List String := []
  cuisine_preferences : List String := []
  dietary_restrictions : List String := []
  exploration_style : Option String := none
  social_preference : Option String := none
  coffee_preference : Option String := none
  price_tier : Option String := none
  deriving Repr, DecidableEq

/-- `FusedTaste` dataclass. -/
structure FusedTaste where
  categories : List CategoryScore := []
  vibes : List String := []
  top_cuisines : List String := []
  exploration_ratio : ℚ := 0
  confidence : ℚ := 0
  quiz_weight : ℚ := 1
  tx_weight : ℚ := 0
  mismatches : List String := []
  deriving Repr, DecidableEq

/-- `TasteFusion.fuse`.  The construction of the result reads
`observed.top_cuisines`; when that dynamic attribute is absent Python
raises `AttributeError`, modelled by the `Except.error` branch. -/
def fuse (max_tx_weight : ℚ) (declared : DeclaredTaste) (observed : UserAnalysis) :
    Except String FusedTaste :=
  let w := calculate_weights max_tx_weight observed.total_transactions
  let conf := calculate_confidence observed.total_transactions
  let er := calculate_exploration_ratio observed
  let cats := build_category_scores observed
  match observed.top_cuisines_attr with
  | none => Except.error "AttributeError: 'UserAnalysis' object has no attribute 'top_cuisines'"
  | some tc =>
      Except.ok
        { categories := cats
          vibes := declared.vibe_preferences
          top_cuisines := tc
          exploration_ratio := er
          confidence := conf
          quiz_weight := w.2
          tx_weight := w.1
          mismatches := [] }

/-! ## `app/mappings/category_mappings.py` -/

/-- `_normalize_category`. -/
def normalizeCategory (cat : String) : String :=
  pyReplace1 (pyReplace1 (pyLower cat) ' ' "_") '-' "_"

/-- `VENUE_TO_USER_CATEGORIES` table. -/
def VENUE_TO_USER_CATEGORIES : List (String × List String) :=
  [("coffee", ["coffee"]),
   ("dining", ["dining", "fast_food"]),
   ("nightlife", ["nightlife", "entertainment"]),
   ("bakery", ["dining", "fast_food", "coffee"])]

/-- The inner loop of `calculate_category_affinity`: first user category
matching `cat` after normalization contributes its percentage. -/
def categoryPct (user_categories : List (String × ℚ)) (cat : String) : ℚ :=
  match user_categories.find? (fun p => normalizeCategory p.1 = normalizeCategory cat) with
  | some p => p.2
  | none => 0

/-- `calculate_category_affinity`. -/
def calculate_category_affinity (user_categories : List (String × ℚ))
    (venue_cluster : Option String) : ℚ :=
  match venue_cluster with
  | none => 0
  | some vc =>
    if vc = "" ∨ user_categories = [] then 0
    else
      let relevant := dictGetD (pyLower vc) [] VENUE_TO_USER_CATEGORIES
      if relevant = [] then 0
      else
        let total_pct := (relevant.map (categoryPct user_categories)).sum
        min (total_pct / 30) 1

/-! ## `app/mappings/vibe_mappings.py` -/

/-- `ENERGY_TO_VIBES` table. -/
def ENERGY_TO_VIBES : List (String × List String) :=
  [("chill", ["chill", "intimate", "cozy", "relaxed", "romantic", "homebody"]),
   ("moderate", ["social", "casual", "trendy", "upscale", "elegant"]),
   ("lively", ["energetic", "fun", "adventurous", "social"])]

/-- `calculate_energy_match`. -/
def calculate_energy_match (user_vibes : List String) (venue_energy : Option String) : ℚ :=
  match venue_energy with
  | none => 0
  | some e =>
    if e = "" ∨ user_vibes = [] then 0
    else
      let compatible := dictGetD e [] ENERGY_TO_VIBES
      let overlap := setOverlap user_vibes compatible
      if overlap ≥ 2 then 1
      else if overlap = 1 then 1/2
      else 0

/-- `EXPLORATION_BONUSES` table. -/
def EXPLORATION_BONUSES : List (String × List (String × ℚ)) :=
  [("adventurous", [("hidden_gem", 1), ("cult_following", 7/10)]),
   ("very_adventurous", [("hidden_gem", 1), ("cult_following", 7/10)]),
   ("moderate", [("hidden_gem", 3/10), ("cult_following", 0)]),
   ("routine", [])]

/-- `calculate_exploration_bonus`: maximum applicable bonus among the
venue's standout tags. -/
def calculate_exploration_bonus (exploration_style : Option String)
    (venue_standout : List String) : ℚ :=
  match exploration_style with
  | none => 0
  | some style =>
    if style = "" ∨ venue_standout = [] then 0
    else
      let bonuses := dictGetD style [] EXPLORATION_BONUSES
      venue_standout.foldl (fun mx s => max mx (dictGetD s 0 bonuses)) 0

/-! ## `app/intelligence/matching_engine.py` -/

/-- The flattened user-taste record handed to the matching engine (a Python
dict read with `.get` and the defaults visible at each call site). -/
structure UserTaste where
  categories : List (String × ℚ) := []
  vibes : List String := []
  price_tier : Option String := none
  exploration_style : Option String := none
  social_preference : Option String := none
  coffee_preference : Option String := none
  cuisine_preferences : List String := []
  top_cuisines : List String := []
  tx_weight : ℚ := 0
  deriving Repr

/-- The venue record handed to the matching engine. -/
structure Venue where
  taste_cluster : Option String := none
  cuisine_type : Option String := none
  energy : Option String := none
  price_tier : Option String := none
  best_for : List String := []
  standout : List String := []
  deriving Repr

/-- `MatchResult` dataclass. -/
structure MatchResult where
  match_score : ℤ
  scores : List (String × ℚ) := []
  reasons : List String := []
  deriving Repr

/-- `SOCIAL_OCCASION_MAP` table. -/
def SOCIAL_OCCASION_MAP : List (String × List String) :=
  [("solo", ["solo_work", "quick_bite"]),
   ("small_group", ["date_night", "casual_hangout", "business_lunch"]),
   ("big_group", ["group_celebration", "late_night", "casual_hangout"])]

/-- `VIBE_OCCASION_MAP` table. -/
def VIBE_OCCASION_MAP : List (String × List String) :=
  [("romantic", ["date_night"]),
   ("intimate", ["date_night", "casual_hangout"]),
   ("social", ["group_celebration", "casual_hangout", "late_night"]),
   ("energetic", ["group_celebration", "late_night"]),
   ("chill", ["solo_work", "casual_hangout"]),
   ("relaxed", ["solo_work", "casual_hangout"]),
   ("upscale", ["date_night", "business_lunch"]),
   ("elegant", ["date_night", "business_lunch"]),
   ("casual", ["casual_hangout", "quick_bite"]),
   ("fun", ["group_celebration", "late_night"])]

/-- `COFFEE_FRIENDLY_VIBES`. -/
def COFFEE_FRIENDLY_VIBES : List String :=
  ["chill", "relaxed", "intimate", "homebody", "casual"]

/-- `NIGHTLIFE_FRIENDLY_VIBES`. -/
def NIGHTLIFE_FRIENDLY_VIBES : List String :=
  ["social", "energetic", "fun", "trendy", "adventurous"]

/-- `DINING_WEIGHTS`. -/
def DINING_WEIGHTS : List (String × ℚ) :=
  [("category", 1/5), ("cuisine", 1/4), ("price", 1/5),
   ("energy", 3/20), ("context", 3/20), ("discovery", 1/20)]

/-- `NON_DINING_WEIGHTS`. -/
def NON_DINING_WEIGHTS : List (String × ℚ) :=
  [("category", 1/4), ("venue_fit", 1/5), ("price", 1/5),
   ("energy", 3/20), ("context", 3/20), ("discovery", 1/20)]

/-- `NEW_USER_WEIGHTS`. -/
def NEW_USER_WEIGHTS : List (String × ℚ) :=
  [("cuisine_or_fit", 3/10), ("price", 1/4), ("energy", 1/5),
   ("context", 3/20), ("discovery", 1/10)]

/-- `MatchingEngine._cuisine_score_from_list`: rank-based decay, top
preference 1.0, −0.15 per rank, floored at 0. -/
def cuisine_score_from_list (cuisines : List String) (venue : Venue) : ℚ :=
  match venue.cuisine_type with
  | none => 0
  | some vc =>
    if vc = "" ∨ cuisines = [] then 0
    else
      let vlower := pyLower vc
      let clower := cuisines.map (fun c => pyLower c)
      if vlower ∉ clower then 0
      else
        let rank := clower.indexOf vlower
        max (1 - (rank : ℚ) * (3/20)) 0

/-- `MatchingEngine._cuisine_score`: blend of observed and declared cuisine
preferences by `tx_weight`. -/
def cuisine_score (u : UserTaste) (venue : Venue) : ℚ :=
  match venue.cuisine_type with
  | none => 0
  | some vc =>
    if vc = "" then 0
    else
      let tx_cuisines := u.top_cuisines
      let quiz_cuisines := u.cuisine_preferences
      let tx_weight := u.tx_weight
      let quiz_weight := 1 - tx_weight
      let tx_score := cuisine_score_from_list tx_cuisines venue
      let quiz_score := cuisine_score_from_list quiz_cuisines venue
      if tx_cuisines = [] then quiz_score
      else if quiz_cuisines = [] then tx_score
      else tx_score * tx_weight + quiz_score * quiz_weight

/-- `MatchingEngine._coffee_fit_score`. -/
def coffee_fit_score (u : UserTaste) (venue : Venue) : ℚ :=
  let vibe_overlap := setOverlap u.vibes COFFEE_FRIENDLY_VIBES
  let s1 := min ((vibe_overlap : ℚ) * (1/5)) (2/5)
  let s2 :=
    if u.social_preference = some "solo" ∧ "solo_work" ∈ venue.best_for then (2/5 : ℚ)
    else if (u.social_preference = some "small_group" ∨ u.social_preference = some "big_group")
        ∧ "casual_hangout" ∈ venue.best_for then 3/10
    else 1/10
  let s3 :=
    if u.coffee_preference = some "third_wave" then (1/5 : ℚ)
    else if u.coffee_preference = some "any" then 1/10
    else 0
  min (s1 + s2 + s3) 1

/-- `MatchingEngine._nightlife_fit_score`. -/
def nightlife_fit_score (u : UserTaste) (venue : Venue) : ℚ :=
  let s1 :=
    if u.social_preference = some "big_group" then (2/5 : ℚ)
    else if u.social_preference = some "small_group" then 3/10
    else if u.social_preference = some "solo" then 1/20
    else 3/20
  let vibe_overlap := setOverlap u.vibes NIGHTLIFE_FRIENDLY_VIBES
  let s2 := min ((vibe_overlap : ℚ) * (3/20)) (9/20)
  let s3 :=
    (if u.social_preference = some "big_group" ∧ "group_celebration" ∈ venue.best_for
     then (3/20 : ℚ) else 0)
    + (if "late_night" ∈ venue.best_for ∧ "energetic" ∈ u.vibes then (1/10 : ℚ) else 0)
  min (s1 + s2 + s3) 1

/-- `MatchingEngine._bakery_fit_score`. -/
def bakery_fit_score (u : UserTaste) (venue : Venue) : ℚ :=
  let cozy_vibes := ["chill", "relaxed", "cozy", "casual"]
  let vibe_overlap := setOverlap u.vibes cozy_vibes
  let s1 := (3/20 : ℚ) + min ((vibe_overlap : ℚ) * (3/20)) (3/10)
  let s2 := (if "quick_bite" ∈ venue.best_for then (1/5 : ℚ) else 0)
    + (if "casual_hangout" ∈ venue.best_for then (3/20 : ℚ) else 0)
  min (s1 + s2) 1

/-- `MatchingEngine._venue_type_fit_score`: dispatch on the lowered
cluster, 0 for an unknown cluster. -/
def venue_type_fit_score (u : UserTaste) (venue : Venue) : ℚ :=
  let venue_cluster := pyLower (venue.taste_cluster.getD "")
  if venue_cluster = "coffee" then coffee_fit_score u venue
  else if venue_cluster = "nightlife" then nightlife_fit_score u venue
  else if venue_cluster = "bakery" then bakery_fit_score u venue
  else 0

/-- `MatchingEngine._social_to_best_for_match`. -/
def social_to_best_for_match (social_pref : Option String) (best_for : List String) : ℚ :=
  match social_pref with
  | none => 0
  | some sp =>
    if sp = "" then 0
    else
      let matching := dictGetD sp [] SOCIAL_OCCASION_MAP
      let overlap := setOverlap best_for matching
      if overlap ≥ 2 then 1
      else if overlap = 1 then 1/2
      else 0

/-- `MatchingEngine._vibes_to_occasion_match`. -/
def vibes_to_occasion_match (vibes : List String) (best_for : List String) : ℚ :=
  if vibes = [] then 0
  else
    let relevant := vibes.foldl (fun acc v => acc ++ dictGetD (pyLower v) [] VIBE_OCCASION_MAP) []
    let overlap := setOverlap best_for relevant
    if overlap ≥ 2 then 1
    else if overlap = 1 then 1/2
    else 0

/-- `MatchingEngine._context_match_score`. -/
def context_match_score (u : UserTaste) (venue : Venue) : ℚ :=
  if venue.best_for = [] then 0
  else
    let social_match := social_to_best_for_match u.social_preference venue.best_for
    let occasion_match := vibes_to_occasion_match u.vibes venue.best_for
    min (social_match * (1/2) + occasion_match * (1/2)) 1

/-- `MatchingEngine._category_score`. -/
def category_score (u : UserTaste) (venue : Venue) : ℚ :=
  calculate_category_affinity u.categories venue.taste_cluster

/-- `sum(weights.get(k, 0) * v for k, v in scores.items())`. -/
def weightedTotal (weights scores : List (String × ℚ)) : ℚ :=
  (scores.map (fun p => dictGetD p.1 0 weights * p.2)).sum

/-- `MatchingEngine.score`: adaptive weighted sum for established users.
A venue is dining iff `cuisine_type` is not `None`. -/
def score (u : UserTaste) (venue : Venue) : MatchResult :=
  let is_dining := venue.cuisine_type.isSome
  let head := [("category", category_score u venue)]
  let head :=
    if is_dining then head ++ [("cuisine", cuisine_score u venue)]
    else head ++ [("venue_fit", venue_type_fit_score u venue)]
  let weights := if is_dining then DINING_WEIGHTS else NON_DINING_WEIGHTS
  let scores := head ++
    [("price", calculate_price_match u.price_tier venue.price_tier),
     ("energy", calculate_energy_match u.vibes venue.energy),
     ("context", context_match_score u venue),
     ("discovery", calculate_exploration_bonus u.exploration_style venue.standout)]
  let total := weightedTotal weights scores
  let match_score := roundHalfEven (total * 100)
  { match_score := min (max match_score 0) 100, scores := scores }

/-- `sum(NEW_USER_WEIGHTS[k] * scores[k] for k in NEW_USER_WEIGHTS)`. -/
def newUserTotal (scores : List (String × ℚ)) : ℚ :=
  (NEW_USER_WEIGHTS.map (fun p => p.2 * dictGetD p.1 0 scores)).sum

/-- `MatchingEngine.score_new_user`: quiz-only scoring. -/
def score_new_user (u : UserTaste) (venue : Venue) : MatchResult :=
  let is_dining := venue.cuisine_type.isSome
  let first :=
    if is_dining then ("cuisine_or_fit", cuisine_score_from_list u.cuisine_preferences venue)
    else ("cuisine_or_fit", venue_type_fit_score u venue)
  let scores := [first,
    ("price", calculate_price_match u.price_tier venue.price_tier),
    ("energy", calculate_energy_match u.vibes venue.energy),
    ("context", context_match_score u venue),
    ("discovery", calculate_exploration_bonus u.exploration_style venue.standout)]
  let total := newUserTotal scores
  let match_score := roundHalfEven (total * 100)
  { match_score := min (max match_score 0) 100, scores := scores }

/-! ## Association-list dictionary lemmas -/

theorem dictGet_dictSet_self {β : Type} (k : String) (v : β) (l : List (String × β)) :
    dictGet k (dictSet k v l) = some v := by
  induction l with
  | nil => simp [dictGet, dictSet]
  | cons p rest ih =>
      obtain ⟨pk, pv⟩ := p
      by_cases h : pk = k
      · simp [dictSet, if_pos h, dictGet]
      · simp only [dictSet, if_neg h, dictGet, if_neg h, ih]

theorem dictGet_dictSet_ne {β : Type} {k' k : String} (h : k' ≠ k) (v : β)
    (l : List (String × β)) : dictGet k' (dictSet k v l) = dictGet k' l := by
  induction l with
  | nil =>
      simp only [dictSet, dictGet]
      rw [if_neg (Ne.symm h)]
  | cons p rest ih =>
      obtain ⟨pk, pv⟩ := p
      by_cases hp : pk = k
      · subst hp
        simp only [dictSet, if_pos rfl, dictGet, if_neg (Ne.symm h)]
      · simp only [dictSet, if_neg hp, dictGet]
        by_cases hp' : pk = k'
        · simp only [if_pos hp']
        · simp only [if_neg hp', ih]

theorem mem_dictSet {β : Type} {p : String × β} {k : String} {v : β}
    {l : List (String × β)} (h : p ∈ dictSet k v l) : p = (k, v) ∨ p ∈ l := by
  induction l with
  | nil => simpa [dictSet] using h
  | cons q rest ih =>
      obtain ⟨qk, qv⟩ := q
      by_cases hq : qk = k
      · simp only [dictSet, if_pos hq] at h
        rcases List.mem_cons.mp h with h | h
        · exact Or.inl h
        · exact Or.inr (List.mem_cons_of_mem _ h)
      · simp only [dictSet, if_neg hq] at h
        rcases List.mem_cons.mp h with h | h
        · exact Or.inr (by simp [h])
        · rcases ih h with h | h
          · exact Or.inl h
          · exact Or.inr (List.mem_cons_of_mem _ h)

theorem dictGet_mem {β : Type} {k : String} {v : β} {l : List (String × β)}
    (h : dictGet k l = some v) : (k, v) ∈ l := by
  induction l with
  | nil => simp [dictGet] at h
  | cons q rest ih =>
      obtain ⟨qk, qv⟩ := q
      by_cases hq : qk = k
      · subst hq
        simp only [dictGet, reduceIte, Option.some.injEq] at h
        exact h ▸ List.mem_cons_self _ _
      · simp only [dictGet, if_neg hq] at h
        exact List.mem_cons_of_mem _ (ih h)

/-! ## Stable descending sort lemmas -/

theorem insertDescBy_perm {α : Type} (key : α → ℤ) (x : α) (l : List α) :
    List.Perm (insertDescBy key x l) (x :: l) := by
  induction l with
  | nil => rfl
  | cons y ys ih =>
      by_cases h : key x ≥ key y
      · simp [insertDescBy, h]
      · simp only [insertDescBy, if_neg h]
        exact ((ih.cons y).trans (List.Perm.swap x y ys))

theorem sortDescBy_perm {α : Type} (key : α → ℤ) (l : List α) :
    List.Perm (sortDescBy key l) l := by
  induction l with
  | nil => rfl
  | cons y ys ih =>
      exact (insertDescBy_perm key y (sortDescBy key ys)).trans (ih.cons y)

theorem length_sortDescBy {α : Type} (key : α → ℤ) (l : List α) :
    (sortDescBy key l).length = l.length :=
  (sortDescBy_perm key l).length_eq

theorem mem_sortDescBy {α : Type} {key : α → ℤ} {x : α} {l : List α} :
    x ∈ sortDescBy key l ↔ x ∈ l :=
  (sortDescBy_perm key l).mem_iff

theorem sorted_insertDescBy {α : Type} (key : α → ℤ) (x : α) {l : List α}
    (h : List.Sorted (fun a b => key b ≤ key a) l) :
    List.Sorted (fun a b => key b ≤ key a) (insertDescBy key x l) := by
  induction l with
  | nil => simp [insertDescBy]
  | cons y ys ih =>
      rcases List.sorted_cons.mp h with ⟨hy, hys⟩
      by_cases hxy : key x ≥ key y
      · simp only [insertDescBy, if_pos hxy]
        refine List.sorted_cons.mpr ⟨?_, List.sorted_cons.mpr ⟨hy, hys⟩⟩
        intro b hb
        rcases List.mem_cons.mp hb with rfl | hb
        · exact hxy
        · exact le_trans (hy b hb) hxy
      · simp only [insertDescBy, if_neg hxy]
        refine List.sorted_cons.mpr ⟨?_, ih hys⟩
        intro b hb
        rcases List.mem_cons.mp ((insertDescBy_perm key x ys).mem_iff.mp hb) with rfl | hb
        · exact le_of_not_ge hxy
        · exact hy b hb

theorem sorted_sortDescBy {α : Type} (key : α → ℤ) (l : List α) :
    List.Sorted (fun a b => key b ≤ key a) (sortDescBy key l) := by
  induction l with
  | nil => simp [sortDescBy]
  | cons y ys ih => exact sorted_insertDescBy key y ih

/-! ## Projections of one `ingest` call

Each `_update_*` method touches a disjoint set of `UserAnalysis` fields, so
each field of `ingest`'s result is its own step function applied to the
field's previous value. -/

theorem ingest_categories (limit : ℕ) (t : ProcessedTransaction) (a : UserAnalysis) :
    (ingest limit t a).categories = categoryStep t a.categories := rfl

theorem ingest_streaks (limit : ℕ) (t : ProcessedTransaction) (a : UserAnalysis) :
    (ingest limit t a).streaks = streaksMapStep t a.streaks := rfl

theorem ingest_exploration (limit : ℕ) (t : ProcessedTransaction) (a : UserAnalysis) :
    (ingest limit t a).exploration = explorationStep t a.exploration := rfl

theorem ingest_top_merchants (limit : ℕ) (t : ProcessedTransaction) (a : UserAnalysis) :
    (ingest limit t a).top_merchants
      = (visitsTmStep limit t (a.merchant_visits, a.top_merchants)).2 := rfl

theorem ingest_merchant_visits (limit : ℕ) (t : ProcessedTransaction) (a : UserAnalysis) :
    (ingest limit t a).merchant_visits
      = (visitsTmStep limit t (a.merchant_visits, a.top_merchants)).1 := rfl

theorem ingest_total_transactions (limit : ℕ) (t : ProcessedTransaction) (a : UserAnalysis) :
    (ingest limit t a).total_transactions = a.total_transactions + 1 := rfl

theorem dictGetD_dictSet_self {β : Type} (k : String) (d v : β) (l : List (String × β)) :
    dictGetD k d (dictSet k v l) = v := by
  simp [dictGetD, dictGet_dictSet_self]

/-- A same-merchant coffee transaction on a given calendar day (the
scenario inputs of the spec's §8). -/
def sampleCoffeeTxn (i : String) (day : ℤ) : ProcessedTransaction :=
  { id := i, amount := 5, timestamp := day, merchant_name := "Blue Bottle",
    merchant_id := some "merchant-bb", taste_category := "coffee",
    time_bucket := "morning", day_type := "weekday" }

/-- A transaction with no merchant identity: `merchant_id` is `None` and
`merchant_name` is the (falsy) empty string. -/
def txnNoMerchant : ProcessedTransaction :=
  { id := "t-anon", amount := 5, timestamp := 15, merchant_name := "",
    merchant_id := none, taste_category := "coffee",
    time_bucket := "morning", day_type := "weekday" }

/-! ## Claim theorems -/

/-- C7: `tx_weight = min(transaction_count / 50, max_tx_weight)` with the
default `max_tx_weight = 0.7`, `quiz_weight = 1 - tx_weight` exactly, for
every transaction count; `tx_weight(0) = 0`, `tx_weight(25) = 1/2`, and
`tx_weight(n) = 0.7` for every `n ≥ 50`. -/
theorem C7_fusion_weight_law (n : ℕ) :
    (calculate_weights (7/10) n).1 = min ((n : ℚ) / 50) (7/10) ∧
    (calculate_weights (7/10) n).2 = 1 - (calculate_weights (7/10) n).1 ∧
    (calculate_weights (7/10) 0).1 = 0 ∧
    (calculate_weights (7/10) 25).1 = 1/2 ∧
    (50 ≤ n → (calculate_weights (7/10) n).1 = 7/10) := by
  refine ⟨?_, ?_, by norm_num [calculate_weights], by norm_num [calculate_weights], ?_⟩
  · by_cases h : n = 0
    · subst h
      norm_num [calculate_weights]
    · simp [calculate_weights, h]
  · by_cases h : n = 0
    · subst h
      norm_num [calculate_weights]
    · simp [calculate_weights, h]
  · intro h50
    have hn : n ≠ 0 := by omega
    simp only [calculate_weights, if_neg hn]
    rw [min_eq_right]
    have h1 : (1 : ℚ) ≤ (n : ℚ) / 50 := by
      rw [le_div_iff₀ (by norm_num : (0:ℚ) < 50)]
      exact_mod_cast by simpa using h50
    linarith

/-- Witness for C7 at `n = 60`. -/
theorem C7_fusion_weight_law_witness : (calculate_weights (7/10) 60).1 = 7/10 :=
  (C7_fusion_weight_law 60).2.2.2.2 (by norm_num)

/-- C10: a missing or unparseable venue price string, and a missing or
unrecognized user tier, each normalize to the moderate level 1; hence
`calculate_price_match(None, None) = 1.0` and a moderate-tier user scores
1.0 against any venue without price data. -/
theorem C10_price_normalization_defaults :
    normalize_venue_price none = 1 ∧
    normalize_user_price none = 1 ∧
    (∀ s : String, s ≠ "" →
      dictGet (pyStrip s) DOLLAR_SIGN_LEVELS = none →
      dictGet (pyStrip s) PRICE_RANGE_LEVELS = none →
      (pyStartswith (pyStrip s) "$" ∧ ¬ pyStartswith (pyStrip s) "$$" →
        parseFloat (pyReplace1 (pyReplace1 (pyStrip s) '$' "") ',' "") = none) →
      normalize_venue_price (some s) = 1) ∧
    (∀ t : String, t ≠ "" → dictGet (pyLower t) USER_PRICE_LEVELS = none →
      normalize_user_price (some t) = 1) ∧
    calculate_price_match none none = 1 ∧
    calculate_price_match (some "moderate") none = 1 ∧
    calculate_price_match (some "moderate") (some "") = 1 := by
  refine ⟨rfl, rfl, ?_, ?_, rfl, rfl, rfl⟩
  · intro s hs h1 h2 h3
    simp only [normalize_venue_price, if_neg hs, h1, h2]
    by_cases hc : pyStartswith (pyStrip s) "$" ∧ ¬ pyStartswith (pyStrip s) "$$"
    · rw [if_pos hc, h3 hc]
    · rw [if_neg hc]
  · intro t ht h
    simp [normalize_user_price, if_neg ht, dictGetD, h]

/-- Witness for C10: the unparseable venue string `"N/A"` and the
unrecognized user tier `"fancy"` both normalize to level 1. -/
theorem C10_price_normalization_defaults_witness :
    normalize_venue_price (some "N/A") = 1 ∧ normalize_user_price (some "fancy") = 1 :=
  ⟨C10_price_normalization_defaults.2.2.1 "N/A" (by decide) (by decide) (by decide)
      (by intro h; exact absurd h.1 (by decide)),
   C10_price_normalization_defaults.2.2.2.1 "fancy" (by decide) (by decide)⟩

/-- C1: on `DeclaredTaste()` and a fresh `UserAnalysis` the fusion's weight,
confidence and category computations produce exactly the claimed values
(`tx_weight = 0`, `quiz_weight = 1`, `confidence = 0`, no categories), but
`fuse` itself does not return normally: constructing the result reads
`observed.top_cuisines`, an attribute the `UserAnalysis` dataclass never
declares (the repository's own taste-fusion tests exercise this exact call
and expect it to return), so the call raises `AttributeError`. -/
theorem C1_fuse_fresh_analysis_raises :
    fuse (7/10) {} (freshAnalysis "user-1")
      = Except.error "AttributeError: 'UserAnalysis' object has no attribute 'top_cuisines'" ∧
    (freshAnalysis "user-1").top_cuisines_attr = none ∧
    calculate_weights (7/10) (freshAnalysis "user-1").total_transactions = (0, 1) ∧
    calculate_confidence (freshAnalysis "user-1").total_transactions = 0 ∧
    build_category_scores (freshAnalysis "user-1") = [] :=
  ⟨rfl, rfl, rfl, rfl, rfl⟩

/-- C4: per category, `ingest` drives the streak record as a state machine
on the transaction's calendar date: no prior date gives `current = longest
= 1`; an equal date changes nothing; a one-day-later date increments
`current` and raises `longest` to `max longest current`; a larger gap
resets `current` to 1 and preserves `longest`.  Three same-category
transactions on consecutive days yield `current = longest = 3`; a two-day
gap after two consecutive days yields `current = 1`, `longest = 2`. -/
theorem C4_streak_state_machine :
    (∀ (limit : ℕ) (txn : ProcessedTransaction) (a : UserAnalysis),
      (ingest limit txn a).streaks
        = dictSet txn.taste_category
            (streakStep (dictGetD txn.taste_category {} a.streaks) txn.timestamp)
            a.streaks) ∧
    (∀ (s : StreakData) (d : ℤ),
      (s.last_date = none →
        streakStep s d = { s with current := 1, longest := 1, last_date := some d }) ∧
      (∀ last, s.last_date = some last →
        (d = last → streakStep s d = s) ∧
        (d - last = 1 → streakStep s d =
          { s with current := s.current + 1,
                   longest := max s.longest (s.current + 1),
                   last_date := some d }) ∧
        (1 < d - last → streakStep s d = { s with current := 1, last_date := some d }))) ∧
    ((dictGetD "coffee" {}
        (ingestAll 10 [sampleCoffeeTxn "t1" 15, sampleCoffeeTxn "t2" 16,
          sampleCoffeeTxn "t3" 17] (freshAnalysis "u")).streaks).current = 3 ∧
     (dictGetD "coffee" {}
        (ingestAll 10 [sampleCoffeeTxn "t1" 15, sampleCoffeeTxn "t2" 16,
          sampleCoffeeTxn "t3" 17] (freshAnalysis "u")).streaks).longest = 3) ∧
    ((dictGetD "coffee" {}
        (ingestAll 10 [sampleCoffeeTxn "t1" 15, sampleCoffeeTxn "t2" 16,
          sampleCoffeeTxn "t3" 19] (freshAnalysis "u")).streaks).current = 1 ∧
     (dictGetD "coffee" {}
        (ingestAll 10 [sampleCoffeeTxn "t1" 15, sampleCoffeeTxn "t2" 16,
          sampleCoffeeTxn "t3" 19] (freshAnalysis "u")).streaks).longest = 2) := by
  refine ⟨fun limit txn a => rfl, ?_, ⟨rfl, rfl⟩, ⟨rfl, rfl⟩⟩
  intro s d
  constructor
  · intro h
    simp [streakStep, h]
  · intro last h
    refine ⟨?_, ?_, ?_⟩
    · intro hd
      subst hd
      simp [streakStep, h]
    · intro hd
      have h0 : ¬ (d - last = 0) := by omega
      simp [streakStep, h, h0, hd]
    · intro hd
      have h0 : ¬ (d - last = 0) := by omega
      have h1 : ¬ (d - last = 1) := by omega
      simp [streakStep, h, h0, h1]

/-- Witness for C4: the state machine applied to a fresh record and to a
record with a stored date, at concrete dates. -/
theorem C4_streak_state_machine_witness :
    streakStep {} 15 = { current := 1, longest := 1, last_date := some 15 } ∧
    streakStep { current := 2, longest := 2, last_date := some 16 } 19
      = { current := 1, longest := 2, last_date := some 19 } :=
  ⟨(C4_streak_state_machine.2.1 {} 15).1 rfl,
   ((C4_streak_state_machine.2.1 { current := 2, longest := 2, last_date := some 16 } 19).2
      16 rfl).2.2 (by norm_num)⟩

/-- C3 counterexample: for a transaction with no merchant identifier the
code skips the entire exploration update — after ingesting one such
`"coffee"` transaction into a fresh aggregate, no exploration record
exists and the category's `total` is still 0, not 1 as the claim
requires. -/
theorem C3_exploration_total_counterexample :
    txnNoMerchant.taste_category = "coffee" ∧
    merchantKey txnNoMerchant = none ∧
    (ingest 10 txnNoMerchant (freshAnalysis "u")).exploration = [] ∧
    (dictGetD "coffee" {} (ingest 10 txnNoMerchant (freshAnalysis "u")).exploration).total
      = 0 :=
  ⟨rfl, rfl, rfl, rfl⟩

/-- C3 amended: for every ingested transaction that carries a merchant
key, the exploration record of its category has `total` incremented by
exactly 1 and `unique` incremented by 1 exactly when that key was not
seen before in the category; a transaction with no merchant key leaves
the exploration map entirely unchanged (`total` included). -/
theorem C3_exploration_amended (limit : ℕ) (txn : ProcessedTransaction) (a : UserAnalysis) :
    (∀ key, merchantKey txn = some key →
      ((dictGetD txn.taste_category {} (ingest limit txn a).exploration).total
          = (dictGetD txn.taste_category {} a.exploration).total + 1) ∧
      (key ∉ (dictGetD txn.taste_category {} a.exploration).seen_merchants →
        (dictGetD txn.taste_category {} (ingest limit txn a).exploration).unique
            = (dictGetD txn.taste_category {} a.exploration).unique + 1) ∧
      (key ∈ (dictGetD txn.taste_category {} a.exploration).seen_merchants →
        (dictGetD txn.taste_category {} (ingest limit txn a).exploration).unique
            = (dictGetD txn.taste_category {} a.exploration).unique)) ∧
    (merchantKey txn = none → (ingest limit txn a).exploration = a.exploration) := by
  rw [ingest_exploration]
  constructor
  · intro key hkey
    by_cases hseen : key ∈ (dictGetD txn.taste_category {} a.exploration).seen_merchants
    · simp [explorationStep, hkey, hseen, dictGetD_dictSet_self]
    · simp [explorationStep, hkey, hseen, dictGetD_dictSet_self]
  · intro hkey
    simp [explorationStep, hkey]

/-- Witness for C3 at a concrete transaction with a merchant key. -/
theorem C3_exploration_amended_witness :
    (dictGetD "coffee" {}
        (ingest 10 (sampleCoffeeTxn "t1" 15) (freshAnalysis "u")).exploration).total
      = (dictGetD "coffee" {} (freshAnalysis "u").exploration).total + 1 :=
  ((C3_exploration_amended 10 (sampleCoffeeTxn "t1" 15) (freshAnalysis "u")).1
    "merchant-bb" rfl).1

/-- One `ingest`'s effect on a category's count. -/
theorem categoryStep_count (t : ProcessedTransaction) (m : List (String × CategoryStats))
    (c : String) :
    (dictGetD c {} (categoryStep t m)).count
      = (dictGetD c {} m).count + (if t.taste_category = c then 1 else 0) := by
  by_cases hc : t.taste_category = c
  · subst hc
    cases hk : merchantKey t <;>
      simp [categoryStep, hk, dictGetD_dictSet_self]
  · have h' : c ≠ t.taste_category := fun h => hc h.symm
    cases hk : merchantKey t <;>
      simp [categoryStep, hk, dictGetD, dictGet_dictSet_ne h', if_neg hc]

/-- One `ingest`'s effect on a category's total spend. -/
theorem categoryStep_spend (t : ProcessedTransaction) (m : List (String × CategoryStats))
    (c : String) :
    (dictGetD c {} (categoryStep t m)).total_spend
      = (dictGetD c {} m).total_spend + (if t.taste_category = c then t.amount else 0) := by
  by_cases hc : t.taste_category = c
  · subst hc
    cases hk : merchantKey t <;>
      simp [categoryStep, hk, dictGetD_dictSet_self]
  · have h' : c ≠ t.taste_category := fun h => hc h.symm
    cases hk : merchantKey t <;>
      simp [categoryStep, hk, dictGetD, dictGet_dictSet_ne h', if_neg hc]

/-- Folding `ingest` over a transaction list adds, per category, the number
of matching transactions to the count, their summed amounts to the spend,
and the list's length to the transaction total. -/
theorem ingestAll_category_stats (limit : ℕ) (c : String)
    (txs : List ProcessedTransaction) : ∀ a : UserAnalysis,
    (dictGetD c {} (ingestAll limit txs a).categories).count
      = (dictGetD c {} a.categories).count
        + ((txs.filter (fun t => t.taste_category = c)).length : ℤ) ∧
    (dictGetD c {} (ingestAll limit txs a).categories).total_spend
      = (dictGetD c {} a.categories).total_spend
        + ((txs.filter (fun t => t.taste_category = c)).map (fun t => t.amount)).sum ∧
    (ingestAll limit txs a).total_transactions = a.total_transactions + txs.length := by
  induction txs with
  | nil => intro a; simp [ingestAll]
  | cons t ts ih =>
      intro a
      have hstep : ingestAll limit (t :: ts) a = ingestAll limit ts (ingest limit t a) := rfl
      rw [hstep]
      obtain ⟨ihc, ihs, iht⟩ := ih (ingest limit t a)
      refine ⟨?_, ?_, ?_⟩
      · rw [ihc, ingest_categories, categoryStep_count]
        by_cases hc : t.taste_category = c <;>
          simp [List.filter_cons, hc] <;> push_cast <;> ring
      · rw [ihs, ingest_categories, categoryStep_spend]
        by_cases hc : t.taste_category = c <;>
          simp [List.filter_cons, hc] <;> ring
      · rw [iht, ingest_total_transactions]
        simp only [List.length_cons]
        omega

/-- C9: from a fresh aggregate, for every transaction sequence and every
category `c`, `categories[c].count` is the number of ingested transactions
with `taste_category = c`, `categories[c].total_spend` their summed
amounts, and `total_transactions` the sequence's length. -/
theorem C9_aggregation_correctness (limit : ℕ) (uid : String)
    (txs : List ProcessedTransaction) (c : String) :
    (dictGetD c {} (ingestAll limit txs (freshAnalysis uid)).categories).count
      = ((txs.filter (fun t => t.taste_category = c)).length : ℤ) ∧
    (dictGetD c {} (ingestAll limit txs (freshAnalysis uid)).categories).total_spend
      = ((txs.filter (fun t => t.taste_category = c)).map (fun t => t.amount)).sum ∧
    (ingestAll limit txs (freshAnalysis uid)).total_transactions = txs.length := by
  obtain ⟨hc, hs, ht⟩ := ingestAll_category_stats limit c txs (freshAnalysis uid)
  refine ⟨?_, ?_, ?_⟩
  · simpa [freshAnalysis, dictGetD, dictGet] using hc
  · simpa [freshAnalysis, dictGetD, dictGet] using hs
  · simpa [freshAnalysis] using ht

/-- The fix-up step forces the rounded percentages of a non-empty list to
sum to exactly 100. -/
theorem adjustTo100_sum (l : List CategoryScore) (h : l ≠ []) :
    ((adjustTo100 l).map (fun s => s.percentage)).sum = 100 := by
  match l with
  | [] => exact absurd rfl h
  | s0 :: rest =>
      simp only [adjustTo100]
      split_ifs with h100 <;> simp_all [List.map_cons, List.sum_cons] <;> omega

/-- A category-count record for tests and witnesses. -/
def csMk (n : ℤ) : CategoryStats := { count := n }

/-- A concrete observed aggregate: 4 transactions, 3 coffee and 1 dining. -/
def sampleObserved : UserAnalysis :=
  { user_id := "u", total_transactions := 4,
    categories := [("coffee", csMk 3), ("dining", csMk 1)] }

/-- C8: with transactions and a non-empty category map, the fused category
list is the descending-by-percentage sort of the records whose percentage
is `round(count / total_transactions × 100)` (the raw count and spend are
carried over), with the signed rounding difference added to the first
(largest) bucket, after which the percentages sum to exactly 100. -/
theorem C8_category_percentage_closure (observed : UserAnalysis)
    (h1 : observed.total_transactions ≠ 0) (h2 : observed.categories ≠ []) :
    build_category_scores observed
      = adjustTo100 (sortDescBy (fun s => s.percentage) (rawCategoryScores observed)) ∧
    List.Sorted (fun x y => y.percentage ≤ x.percentage)
      (sortDescBy (fun s => s.percentage) (rawCategoryScores observed)) ∧
    (∀ p ∈ observed.categories,
      ∃ s ∈ sortDescBy (fun s => s.percentage) (rawCategoryScores observed),
        s.percentage
            = roundHalfEven (((p.2.count : ℚ) / (observed.total_transactions : ℚ)) * 100)
          ∧ s.count = p.2.count ∧ s.total_spend = p.2.total_spend) ∧
    ((build_category_scores observed).map (fun s => s.percentage)).sum = 100 := by
  have heq : build_category_scores observed
      = adjustTo100 (sortDescBy (fun s => s.percentage) (rawCategoryScores observed)) := by
    rw [build_category_scores, if_neg (by simp [h1, h2])]
  have hne : sortDescBy (fun s => s.percentage) (rawCategoryScores observed) ≠ [] := by
    intro hnil
    apply h2
    have hlen := length_sortDescBy (fun s => s.percentage) (rawCategoryScores observed)
    rw [hnil] at hlen
    simp only [List.length_nil, rawCategoryScores, List.length_map] at hlen
    exact List.eq_nil_of_length_eq_zero hlen.symm
  refine ⟨heq, sorted_sortDescBy _ _, ?_, ?_⟩
  · intro p hp
    refine ⟨{ name := format_category_name p.1
              percentage := roundHalfEven
                (((p.2.count : ℚ) / (observed.total_transactions : ℚ)) * 100)
              color := dictGetD p.1 "#808080" CATEGORY_COLORS
              count := p.2.count
              total_spend := p.2.total_spend }, ?_, rfl, rfl, rfl⟩
    exact mem_sortDescBy.mpr (List.mem_map.mpr ⟨p, hp, rfl⟩)
  · rw [heq]
    exact adjustTo100_sum _ hne

/-- Witness for C8 on a concrete 4-transaction aggregate. -/
theorem C8_category_percentage_closure_witness :
    ((build_category_scores sampleObserved).map (fun s => s.percentage)).sum = 100 :=
  (C8_category_percentage_closure sampleObserved (by decide) (by decide)).2.2.2

/-! ## Component-score bounds for the matching engine -/

theorem dictGetD_val_cases {β : Type} (k : String) (d : β) (l : List (String × β)) :
    dictGetD k d l = d ∨ ∃ p ∈ l, dictGetD k d l = p.2 := by
  unfold dictGetD
  cases h : dictGet k l with
  | none => left; rfl
  | some v => right; exact ⟨(k, v), dictGet_mem h, rfl⟩

theorem calculate_price_match_bounds (a b : Option String) :
    0 ≤ calculate_price_match a b ∧ calculate_price_match a b ≤ 1 := by
  simp only [calculate_price_match]
  split_ifs <;> norm_num

theorem calculate_energy_match_bounds (vs : List String) (e : Option String) :
    0 ≤ calculate_energy_match vs e ∧ calculate_energy_match vs e ≤ 1 := by
  rcases e with _ | e
  · simp [calculate_energy_match]
  · simp only [calculate_energy_match]
    split_ifs <;> norm_num

theorem foldl_max_bounds (f : String → ℚ) (hf : ∀ t, 0 ≤ f t ∧ f t ≤ 1)
    (l : List String) : ∀ acc, 0 ≤ acc → acc ≤ 1 →
    0 ≤ l.foldl (fun mx s => max mx (f s)) acc ∧
    l.foldl (fun mx s => max mx (f s)) acc ≤ 1 := by
  induction l with
  | nil => intro acc h0 h1; exact ⟨h0, h1⟩
  | cons t ts ih =>
      intro acc h0 h1
      exact ih (max acc (f t)) (le_trans h0 (le_max_left _ _))
        (max_le h1 (hf t).2)

theorem exploration_bonus_bounds (style : Option String) (standout : List String) :
    0 ≤ calculate_exploration_bonus style standout ∧
    calculate_exploration_bonus style standout ≤ 1 := by
  rcases style with _ | s
  · simp [calculate_exploration_bonus]
  · simp only [calculate_exploration_bonus]
    split_ifs with h
    · norm_num
    · refine foldl_max_bounds _ ?_ standout 0 le_rfl (by norm_num)
      intro t
      have htbl : ∀ p ∈ EXPLORATION_BONUSES, ∀ q ∈ p.2, 0 ≤ q.2 ∧ q.2 ≤ 1 := by
        intro p hp q hq
        fin_cases hp <;> fin_cases hq <;> norm_num
      rcases dictGetD_val_cases s [] EXPLORATION_BONUSES with hv | ⟨p, hp, hv⟩
      · rw [hv]
        simp [dictGetD, dictGet]
      · rw [hv]
        rcases dictGetD_val_cases t 0 p.2 with h2 | ⟨q, hq, h2⟩
        · rw [h2]; norm_num
        · rw [h2]; exact htbl p hp q hq

theorem categoryPct_nonneg {cats : List (String × ℚ)} (hpct : ∀ p ∈ cats, 0 ≤ p.2)
    (c : String) : 0 ≤ categoryPct cats c := by
  unfold categoryPct
  cases h : cats.find? (fun p => normalizeCategory p.1 = normalizeCategory c) with
  | none => exact le_rfl
  | some p => exact hpct p (List.mem_of_find?_eq_some h)

theorem category_affinity_bounds (cats : List (String × ℚ)) (cluster : Option String)
    (hpct : ∀ p ∈ cats, 0 ≤ p.2) :
    0 ≤ calculate_category_affinity cats cluster ∧
    calculate_category_affinity cats cluster ≤ 1 := by
  rcases cluster with _ | vc
  · simp [calculate_category_affinity]
  · simp only [calculate_category_affinity]
    split_ifs with h1 h2
    · norm_num
    · norm_num
    · have hsum : 0 ≤ ((dictGetD (pyLower vc) [] VENUE_TO_USER_CATEGORIES).map
          (categoryPct cats)).sum := by
        apply List.sum_nonneg
        intro x hx
        rcases List.mem_map.mp hx with ⟨c, _, rfl⟩
        exact categoryPct_nonneg hpct c
      constructor
      · exact le_min (by positivity) (by norm_num)
      · exact min_le_right _ _

theorem cuisine_from_list_bounds (cuisines : List String) (venue : Venue) :
    0 ≤ cuisine_score_from_list cuisines venue ∧
    cuisine_score_from_list cuisines venue ≤ 1 := by
  rcases hvc : venue.cuisine_type with _ | vc
  · simp [cuisine_score_from_list, hvc]
  · simp only [cuisine_score_from_list, hvc]
    have hr : (0:ℚ)
        ≤ (List.indexOf (pyLower vc) (List.map (fun c => pyLower c) cuisines) : ℚ) :=
      Nat.cast_nonneg _
    split_ifs <;> constructor <;>
      first
        | norm_num
        | exact le_max_right _ _
        | (apply max_le <;> nlinarith)

theorem cuisine_score_bounds (u : UserTaste) (venue : Venue)
    (h0 : 0 ≤ u.tx_weight) (h1 : u.tx_weight ≤ 1) :
    0 ≤ cuisine_score u venue ∧ cuisine_score u venue ≤ 1 := by
  obtain ⟨ht0, ht1⟩ := cuisine_from_list_bounds u.top_cuisines venue
  obtain ⟨hq0, hq1⟩ := cuisine_from_list_bounds u.cuisine_preferences venue
  rcases hc : venue.cuisine_type with _ | vc
  · simp [cuisine_score, hc]
  · simp only [cuisine_score, hc]
    split_ifs with hvc htx hqz
    · norm_num
    · exact ⟨hq0, hq1⟩
    · exact ⟨ht0, ht1⟩
    · constructor
      · nlinarith
      · nlinarith

theorem coffee_fit_bounds (u : UserTaste) (venue : Venue) :
    0 ≤ coffee_fit_score u venue ∧ coffee_fit_score u venue ≤ 1 := by
  simp only [coffee_fit_score]
  refine ⟨le_min ?_ (by norm_num), min_le_right _ _⟩
  have h1 : (0:ℚ) ≤ min ((setOverlap u.vibes COFFEE_FRIENDLY_VIBES : ℚ) * (1/5)) (2/5) :=
    le_min (by positivity) (by norm_num)
  split_ifs <;> linarith

theorem nightlife_fit_bounds (u : UserTaste) (venue : Venue) :
    0 ≤ nightlife_fit_score u venue ∧ nightlife_fit_score u venue ≤ 1 := by
  simp only [nightlife_fit_score]
  refine ⟨le_min ?_ (by norm_num), min_le_right _ _⟩
  have h2 : (0:ℚ) ≤ min ((setOverlap u.vibes NIGHTLIFE_FRIENDLY_VIBES : ℚ) * (3/20)) (9/20) :=
    le_min (by positivity) (by norm_num)
  split_ifs <;> linarith

theorem bakery_fit_bounds (u : UserTaste) (venue : Venue) :
    0 ≤ bakery_fit_score u venue ∧ bakery_fit_score u venue ≤ 1 := by
  simp only [bakery_fit_score]
  refine ⟨le_min ?_ (by norm_num), min_le_right _ _⟩
  have h1 : (0:ℚ) ≤ min ((setOverlap u.vibes ["chill", "relaxed", "cozy", "casual"] : ℚ)
      * (3/20)) (3/10) :=
    le_min (by positivity) (by norm_num)
  split_ifs <;> linarith

theorem venue_fit_bounds (u : UserTaste) (venue : Venue) :
    0 ≤ venue_type_fit_score u venue ∧ venue_type_fit_score u venue ≤ 1 := by
  simp only [venue_type_fit_score]
  split_ifs
  · exact coffee_fit_bounds u venue
  · exact nightlife_fit_bounds u venue
  · exact bakery_fit_bounds u venue
  · norm_num

theorem social_match_bounds (sp : Option String) (bf : List String) :
    0 ≤ social_to_best_for_match sp bf ∧ social_to_best_for_match sp bf ≤ 1 := by
  rcases sp with _ | s
  · simp [social_to_best_for_match]
  · simp only [social_to_best_for_match]
    split_ifs <;> norm_num

theorem occasion_match_bounds (vibes bf : List String) :
    0 ≤ vibes_to_occasion_match vibes bf ∧ vibes_to_occasion_match vibes bf ≤ 1 := by
  simp only [vibes_to_occasion_match]
  split_ifs <;> norm_num

theorem context_match_bounds (u : UserTaste) (venue : Venue) :
    0 ≤ context_match_score u venue ∧ context_match_score u venue ≤ 1 := by
  simp only [context_match_score]
  split_ifs
  · norm_num
  · obtain ⟨hs0, _⟩ := social_match_bounds u.social_preference venue.best_for
    obtain ⟨ho0, _⟩ := occasion_match_bounds u.vibes venue.best_for
    exact ⟨le_min (by linarith) (by norm_num), min_le_right _ _⟩

/-- C6: for every user-taste map with non-negative category percentages and
`tx_weight ∈ [0,1]`, and every venue map, both `score` and
`score_new_user` return a `match_score` in `[0,100]` equal to
`round(100 × Σ weight_i × score_i)` clamped to `[0,100]`, and every
component score in the returned scores map lies in `[0,1]`. -/
theorem C6_match_score_bounds (u : UserTaste) (venue : Venue)
    (hpct : ∀ p ∈ u.categories, 0 ≤ p.2)
    (htx0 : 0 ≤ u.tx_weight) (htx1 : u.tx_weight ≤ 1) :
    (0 ≤ (score u venue).match_score ∧ (score u venue).match_score ≤ 100 ∧
      (score u venue).match_score
        = min (max (roundHalfEven (weightedTotal
            (if venue.cuisine_type.isSome then DINING_WEIGHTS else NON_DINING_WEIGHTS)
            (score u venue).scores * 100)) 0) 100 ∧
      (∀ p ∈ (score u venue).scores, 0 ≤ p.2 ∧ p.2 ≤ 1)) ∧
    (0 ≤ (score_new_user u venue).match_score ∧
      (score_new_user u venue).match_score ≤ 100 ∧
      (score_new_user u venue).match_score
        = min (max (roundHalfEven (newUserTotal
            (score_new_user u venue).scores * 100)) 0) 100 ∧
      (∀ p ∈ (score_new_user u venue).scores, 0 ≤ p.2 ∧ p.2 ≤ 1)) := by
  have hcat := category_affinity_bounds u.categories venue.taste_cluster hpct
  have hcui := cuisine_score_bounds u venue htx0 htx1
  have hfit := venue_fit_bounds u venue
  have hpr := calculate_price_match_bounds u.price_tier venue.price_tier
  have hen := calculate_energy_match_bounds u.vibes venue.energy
  have hctx := context_match_bounds u venue
  have hdis := exploration_bonus_bounds u.exploration_style venue.standout
  have hcfl := cuisine_from_list_bounds u.cuisine_preferences venue
  refine ⟨⟨le_min (le_max_right _ _) (by norm_num), min_le_right _ _, rfl, ?_⟩,
          ⟨le_min (le_max_right _ _) (by norm_num), min_le_right _ _, rfl, ?_⟩⟩
  · intro p hp
    by_cases hd : venue.cuisine_type.isSome <;>
      simp [score, hd] at hp <;>
      rcases hp with rfl | rfl | rfl | rfl | rfl | rfl <;>
      first
        | exact hcat | exact hcui | exact hfit | exact hpr
        | exact hen | exact hctx | exact hdis
  · intro p hp
    by_cases hd : venue.cuisine_type.isSome <;>
      simp [score_new_user, hd] at hp <;>
      rcases hp with rfl | rfl | rfl | rfl | rfl <;>
      first
        | exact hcfl | exact hfit | exact hpr | exact hen | exact hctx | exact hdis

/-- A quiz-only user for the C6 witness. -/
def sampleUser : UserTaste :=
  { vibes := ["chill", "relaxed"], price_tier := some "moderate",
    social_preference := some "solo" }

/-- A coffee venue for the C6 witness. -/
def sampleVenue : Venue :=
  { taste_cluster := some "coffee", energy := some "chill", price_tier := some "$",
    best_for := ["solo_work"] }

/-- Witness for C6 at a concrete user and venue. -/
theorem C6_match_score_bounds_witness :
    0 ≤ (score sampleUser sampleVenue).match_score ∧
    (score sampleUser sampleVenue).match_score ≤ 100 := by
  have h := C6_match_score_bounds sampleUser sampleVenue
    (by simp [sampleUser]) (by norm_num [sampleUser]) (by norm_num [sampleUser])
  exact ⟨h.1.1, h.1.2.1⟩

/-! ## Aggregate invariants (C5) -/

theorem minCountOf_le {m : TopMerchant} : ∀ {tm : List TopMerchant}, m ∈ tm →
    minCountOf tm ≤ m.count := by
  intro tm
  induction tm with
  | nil => simp
  | cons a rest ih =>
      intro hm
      match rest, hm with
      | [], hm =>
          rcases List.mem_cons.mp hm with rfl | hm
          · exact le_rfl
          · simp at hm
      | b :: bs, hm =>
          rcases List.mem_cons.mp hm with rfl | hm
          · exact min_le_left _ _
          · exact le_trans (min_le_right _ _) (ih hm)

theorem exists_minCountOf : ∀ {tm : List TopMerchant}, tm ≠ [] →
    ∃ m ∈ tm, m.count = minCountOf tm := by
  intro tm
  induction tm with
  | nil => intro h; exact absurd rfl h
  | cons a rest ih =>
      intro _
      match rest with
      | [] => exact ⟨a, List.mem_cons_self _ _, rfl⟩
      | b :: bs =>
          obtain ⟨m, hm, hmc⟩ := ih (by simp)
          have hmincons : minCountOf (a :: b :: bs) = min a.count (minCountOf (b :: bs)) :=
            rfl
          rcases le_total a.count (minCountOf (b :: bs)) with hle | hle
          · exact ⟨a, List.mem_cons_self _ _, by rw [hmincons, min_eq_left hle]⟩
          · exact ⟨m, List.mem_cons_of_mem _ hm,
              by rw [hmc, hmincons, min_eq_right hle]⟩

theorem argminCountIdx_lt_length {tm : List TopMerchant} (h : tm ≠ []) :
    argminCountIdx tm < tm.length := by
  obtain ⟨m, hm, hmc⟩ := exists_minCountOf h
  exact List.findIdx_lt_length_of_exists ⟨m, hm, by simp [hmc]⟩

theorem length_updateFirstCount (key : String) (cnt : ℤ) :
    ∀ l : List TopMerchant, (updateFirstCount key cnt l).length = l.length := by
  intro l
  induction l with
  | nil => rfl
  | cons m ms ih =>
      by_cases h : m.merchant_id = key <;> simp [updateFirstCount, h, ih]

theorem rebuild_top_merchants_sorted (limit : ℕ) (key name : String) (cnt : ℤ)
    (tm : List TopMerchant) :
    List.Sorted (fun m1 m2 : TopMerchant => m2.count ≤ m1.count)
      (rebuild_top_merchants limit key name cnt tm) := by
  simp only [rebuild_top_merchants]
  exact sorted_sortDescBy _ _

theorem evictAppend_length_le (limit : ℕ) (hlim : 1 ≤ limit) (newE : TopMerchant)
    (kept : List TopMerchant) (hk : kept.length ≤ limit) :
    ((if kept.length ≥ limit then kept.eraseIdx (argminCountIdx kept) else kept)
        ++ [newE]).length ≤ limit := by
  by_cases h4 : kept.length ≥ limit
  · have hne : kept ≠ [] := by
      intro hnil
      rw [hnil] at h4
      simp at h4
      omega
    have herase := List.length_eraseIdx_add_one (argminCountIdx_lt_length hne)
    rw [if_pos h4, List.length_append, List.length_singleton]
    omega
  · rw [if_neg h4, List.length_append, List.length_singleton]
    omega

theorem rebuild_top_merchants_length (limit : ℕ) (hlim : 1 ≤ limit)
    (key name : String) (cnt : ℤ)
    (tm : List TopMerchant) (hlen : tm.length ≤ limit) :
    (rebuild_top_merchants limit key name cnt tm).length ≤ limit := by
  simp only [rebuild_top_merchants, length_sortDescBy]
  by_cases h1 : (tm.find? (fun m => m.merchant_id = key)).isSome
  · rw [if_pos h1, length_updateFirstCount]
    exact hlen
  · rw [if_neg h1]
    by_cases h2 : tm.length < limit
    · rw [if_pos h2, List.length_append, List.length_singleton]
      omega
    · rw [if_neg h2]
      by_cases h3 : cnt > minCountOf tm
      · rw [if_pos h3]
        refine evictAppend_length_le limit hlim _ _ ?_
        exact le_trans (List.length_filter_le _ _) hlen
      · rw [if_neg h3]
        exact hlen

theorem streakStep_bounds (s : StreakData) (d : ℤ)
    (h : s.last_date = none ∨ (1 ≤ s.current ∧ s.current ≤ s.longest)) :
    1 ≤ (streakStep s d).current ∧
    (streakStep s d).current ≤ (streakStep s d).longest := by
  rcases hl : s.last_date with _ | last
  · simp [streakStep, hl]
  · rcases h with h | ⟨h1, h2⟩
    · rw [hl] at h
      exact absurd h (by simp)
    · simp only [streakStep, hl]
      split_ifs with hd0 hd1
      · exact ⟨h1, h2⟩
      · refine ⟨?_, ?_⟩
        · show (1:ℤ) ≤ s.current + 1
          omega
        · show s.current + 1 ≤ max s.longest (s.current + 1)
          exact le_max_right _ _
      · refine ⟨le_rfl, ?_⟩
        show (1:ℤ) ≤ s.longest
        omega

theorem streaksMapStep_inv (t : ProcessedTransaction)
    (m : List (String × StreakData))
    (h : ∀ p ∈ m, 1 ≤ p.2.current ∧ p.2.current ≤ p.2.longest) :
    ∀ p ∈ streaksMapStep t m, 1 ≤ p.2.current ∧ p.2.current ≤ p.2.longest := by
  intro p hp
  rcases mem_dictSet hp with hpv | hp'
  · subst hpv
    apply streakStep_bounds
    rcases dictGetD_val_cases t.taste_category ({} : StreakData) m with hv | ⟨q, hq, hv⟩
    · rw [hv]
      left
      rfl
    · rw [hv]
      right
      exact h q hq
  · exact h p hp'

theorem categoryStep_inv (t : ProcessedTransaction)
    (m : List (String × CategoryStats)) (hamt : 0 ≤ t.amount)
    (h : ∀ p ∈ m, 0 ≤ p.2.count ∧ 0 ≤ p.2.total_spend) :
    ∀ p ∈ categoryStep t m, 0 ≤ p.2.count ∧ 0 ≤ p.2.total_spend := by
  have hold : 0 ≤ (dictGetD t.taste_category ({} : CategoryStats) m).count ∧
      0 ≤ (dictGetD t.taste_category ({} : CategoryStats) m).total_spend := by
    rcases dictGetD_val_cases t.taste_category ({} : CategoryStats) m with hv | ⟨q, hq, hv⟩
    · rw [hv]
      exact ⟨le_rfl, le_rfl⟩
    · rw [hv]
      exact h q hq
  intro p hp
  cases hk : merchantKey t <;>
    simp only [categoryStep, hk] at hp <;>
    rcases mem_dictSet hp with hpv | hp' <;>
    first
      | (subst hpv
         constructor <;> simp <;> linarith [hold.1, hold.2])
      | exact h p hp'

theorem explorationStep_inv (t : ProcessedTransaction)
    (m : List (String × ExplorationData))
    (h : ∀ p ∈ m, 0 ≤ p.2.unique ∧ p.2.unique ≤ p.2.total) :
    ∀ p ∈ explorationStep t m, 0 ≤ p.2.unique ∧ p.2.unique ≤ p.2.total := by
  have hold : 0 ≤ (dictGetD t.taste_category ({} : ExplorationData) m).unique ∧
      (dictGetD t.taste_category ({} : ExplorationData) m).unique
        ≤ (dictGetD t.taste_category ({} : ExplorationData) m).total := by
    rcases dictGetD_val_cases t.taste_category ({} : ExplorationData) m with hv | ⟨q, hq, hv⟩
    · rw [hv]
      exact ⟨le_rfl, le_rfl⟩
    · rw [hv]
      exact h q hq
  intro p hp
  cases hk : merchantKey t
  · simp only [explorationStep, hk] at hp
    exact h p hp
  · simp only [explorationStep, hk] at hp
    split_ifs at hp <;>
      rcases mem_dictSet hp with hpv | hp' <;>
      first
        | (subst hpv
           constructor <;> simp <;> linarith [hold.1, hold.2])
        | exact h p hp'


/-- The inductive invariant of the aggregate, strengthened on streaks. -/
def AggInv (limit : ℕ) (a : UserAnalysis) : Prop :=
  (∀ p ∈ a.categories, 0 ≤ p.2.count ∧ 0 ≤ p.2.total_spend) ∧
  (∀ p ∈ a.streaks, 1 ≤ p.2.current ∧ p.2.current ≤ p.2.longest) ∧
  (∀ p ∈ a.exploration, 0 ≤ p.2.unique ∧ p.2.unique ≤ p.2.total) ∧
  a.top_merchants.length ≤ limit ∧
  List.Sorted (fun m1 m2 : TopMerchant => m2.count ≤ m1.count) a.top_merchants

theorem ingest_preserves_inv (limit : ℕ) (hlim : 1 ≤ limit) (t : ProcessedTransaction)
    (a : UserAnalysis) (hamt : 0 ≤ t.amount) (h : AggInv limit a) :
    AggInv limit (ingest limit t a) := by
  obtain ⟨hc, hs, he, hl, hsort⟩ := h
  refine ⟨?_, ?_, ?_, ?_, ?_⟩
  · rw [ingest_categories]
    exact categoryStep_inv t a.categories hamt hc
  · rw [ingest_streaks]
    exact streaksMapStep_inv t a.streaks hs
  · rw [ingest_exploration]
    exact explorationStep_inv t a.exploration he
  · rw [ingest_top_merchants]
    cases hk : merchantKey t
    · simp only [visitsTmStep, hk]
      exact hl
    · simp only [visitsTmStep, hk]
      exact rebuild_top_merchants_length _ hlim _ _ _ _ hl
  · rw [ingest_top_merchants]
    cases hk : merchantKey t
    · simp only [visitsTmStep, hk]
      exact hsort
    · simp only [visitsTmStep, hk]
      exact rebuild_top_merchants_sorted _ _ _ _ _

theorem ingestAll_preserves_inv (limit : ℕ) (hlim : 1 ≤ limit)
    (txs : List ProcessedTransaction) :
    ∀ a : UserAnalysis, (∀ t ∈ txs, 0 ≤ t.amount) → AggInv limit a →
    AggInv limit (ingestAll limit txs a) := by
  induction txs with
  | nil => intro a _ h; exact h
  | cons t ts ih =>
      intro a hamt h
      exact ih (ingest limit t a) (fun x hx => hamt x (List.mem_cons_of_mem _ hx))
        (ingest_preserves_inv limit hlim t a (hamt t (List.mem_cons_self _ _)) h)

/-- C5: from a fresh aggregate, after any sequence of ingest calls with
non-negative amounts, every category's count and spend is non-negative,
every streak satisfies `current ≤ longest`, every exploration record
satisfies `unique ≤ total`, and `top_merchants` has length at most the
configured limit and is sorted by count descending. -/
theorem C5_aggregate_invariants (limit : ℕ) (hlim : 1 ≤ limit) (uid : String)
    (txs : List ProcessedTransaction) (hamt : ∀ t ∈ txs, 0 ≤ t.amount) :
    (∀ p ∈ (ingestAll limit txs (freshAnalysis uid)).categories,
        0 ≤ p.2.count ∧ 0 ≤ p.2.total_spend) ∧
    (∀ p ∈ (ingestAll limit txs (freshAnalysis uid)).streaks,
        p.2.current ≤ p.2.longest) ∧
    (∀ p ∈ (ingestAll limit txs (freshAnalysis uid)).exploration,
        p.2.unique ≤ p.2.total) ∧
    (ingestAll limit txs (freshAnalysis uid)).top_merchants.length ≤ limit ∧
    List.Sorted (fun m1 m2 : TopMerchant => m2.count ≤ m1.count)
      (ingestAll limit txs (freshAnalysis uid)).top_merchants := by
  have hfresh : AggInv limit (freshAnalysis uid) := by
    refine ⟨?_, ?_, ?_, ?_, ?_⟩ <;> simp [freshAnalysis]
  obtain ⟨hc, hs, he, hl, hsort⟩ := ingestAll_preserves_inv limit hlim txs
    (freshAnalysis uid) hamt hfresh
  exact ⟨hc, fun p hp => (hs p hp).2, fun p hp => (he p hp).2, hl, hsort⟩

/-- Witness for C5 on one concrete transaction with the default limit. -/
theorem C5_aggregate_invariants_witness :
    (ingestAll 10 [sampleCoffeeTxn "t1" 15] (freshAnalysis "u")).top_merchants.length
      ≤ 10 ∧
    (∀ p ∈ (ingestAll 10 [sampleCoffeeTxn "t1" 15] (freshAnalysis "u")).streaks,
        p.2.current ≤ p.2.longest) := by
  have h := C5_aggregate_invariants 10 (by norm_num) "u" [sampleCoffeeTxn "t1" 15]
    (by intro t ht
        simp only [List.mem_singleton] at ht
        subst ht
        norm_num [sampleCoffeeTxn])
  exact ⟨h.2.2.2.1, h.2.1⟩

/-! ## Top-merchant eviction analysis (C2) -/

theorem dropWhile_min_eq (mc : ℤ) :
    ∀ l : List TopMerchant, List.Sorted (fun m1 m2 => m2.count ≤ m1.count) l →
      (∀ m ∈ l, mc ≤ m.count) →
      ∀ m ∈ l.dropWhile (fun m => decide (mc < m.count)), m.count = mc := by
  intro l
  induction l with
  | nil => simp
  | cons a rest ih =>
      intro hs hlb m hm
      rw [List.dropWhile_cons] at hm
      by_cases hpa : mc < a.count
      · rw [if_pos (by simpa using hpa)] at hm
        exact ih (List.sorted_cons.mp hs).2
          (fun x hx => hlb x (List.mem_cons_of_mem _ hx)) m hm
      · rw [if_neg (by simpa using hpa)] at hm
        have ha_eq : a.count = mc :=
          le_antisymm (by omega) (hlb a (List.mem_cons_self _ _))
        rcases List.mem_cons.mp hm with rfl | hm'
        · exact ha_eq
        · have h1 : m.count ≤ a.count := (List.sorted_cons.mp hs).1 m hm'
          have h2 : mc ≤ m.count := hlb m (List.mem_cons_of_mem _ hm')
          omega

theorem filter_eq_singleton_of_nodup {α : Type} [DecidableEq α] :
    ∀ {l : List α}, l.Nodup → ∀ {x : α}, x ∈ l →
      l.filter (fun y => decide (y = x)) = [x] := by
  intro l
  induction l with
  | nil => intro _ x hx; simp at hx
  | cons a rest ih =>
      intro hnd x hx
      rcases List.mem_cons.mp hx with rfl | hx'
      · have hnot : x ∉ rest := (List.nodup_cons.mp hnd).1
        rw [List.filter_cons]
        rw [if_pos (by simp)]
        rw [List.filter_eq_nil_iff.mpr]
        intro b hb
        simp only [decide_eq_true_eq]
        intro hbx
        exact hnot (hbx ▸ hb)
      · have hax : a ≠ x := by
          intro h
          exact (List.nodup_cons.mp hnd).1 (h ▸ hx')
        rw [List.filter_cons, if_neg (by simp [hax])]
        exact ih (List.nodup_cons.mp hnd).2 hx'

theorem eraseIdx_append_singleton {α : Type} :
    ∀ (l : List α) (x : α), (l ++ [x]).eraseIdx l.length = l := by
  intro l x
  induction l with
  | nil => rfl
  | cons a rest ih => simp [List.eraseIdx, ih]

theorem findIdx_append_singleton {α : Type} (p : α → Bool) :
    ∀ (l : List α) (x : α), (∀ m ∈ l, p m = false) → p x = true →
      (l ++ [x]).findIdx p = l.length := by
  intro l x
  induction l with
  | nil =>
      intro _ hx
      simp [List.findIdx_cons, hx]
  | cons a rest ih =>
      intro h hx
      have ha : p a = false := h a (List.mem_cons_self _ _)
      simp only [List.cons_append, List.findIdx_cons, ha, cond_false, List.length_cons]
      rw [ih (fun m hm => h m (List.mem_cons_of_mem _ hm)) hx]

theorem sorted_getLast_le :
    ∀ (tm : List TopMerchant),
      List.Sorted (fun m1 m2 => m2.count ≤ m1.count) tm → ∀ (hne : tm ≠ []),
      ∀ m ∈ tm, (tm.getLast hne).count ≤ m.count
  | [], _, hne, _, _ => absurd rfl hne
  | [a], _, _, m, hm => by
      rcases List.mem_cons.mp hm with rfl | h
      · exact le_rfl
      · simp at h
  | a :: b :: bs, hs, _, m, hm => by
      have hgl : (a :: b :: bs).getLast (by simp) = (b :: bs).getLast (by simp) := by
        simp [List.getLast]
      rcases List.mem_cons.mp hm with rfl | hm'
      · rw [hgl]
        exact (List.sorted_cons.mp hs).1 _ (List.getLast_mem _)
      · rw [hgl]
        exact sorted_getLast_le (b :: bs) (List.sorted_cons.mp hs).2 (by simp) m hm'

theorem sorted_getLast_count_min (tm : List TopMerchant)
    (hs : List.Sorted (fun m1 m2 => m2.count ≤ m1.count) tm) (hne : tm ≠ []) :
    (tm.getLast hne).count = minCountOf tm := by
  have h1 : minCountOf tm ≤ (tm.getLast hne).count := minCountOf_le (List.getLast_mem hne)
  obtain ⟨m0, hm0, hm0c⟩ := exists_minCountOf hne
  have h2 := sorted_getLast_le tm hs hne m0 hm0
  omega

/-- C2 amended: when a merchant not in a full, sorted, duplicate-free top
list has a new count exceeding the list's minimum count, the code keeps
every entry counting strictly above the minimum, appends the new merchant,
and removes `max (k−1) 1` of the `k` minimum-count entries — exactly one
only when at most two entries share the minimum (with `k ≥ 3` the list
shrinks below the limit).  When the new count does not exceed the minimum,
membership is unchanged. -/
theorem C2_top_merchants_eviction_amended (limit : ℕ) (hlim : 1 ≤ limit)
    (tm : List TopMerchant) (key name : String) (cnt : ℤ)
    (hs : List.Sorted (fun m1 m2 => m2.count ≤ m1.count) tm)
    (hnd : (tm.map (fun m => m.merchant_id)).Nodup)
    (hlen : tm.length = limit)
    (hkey : ∀ m ∈ tm, m.merchant_id ≠ key) :
    (minCountOf tm < cnt →
      (rebuild_top_merchants limit key name cnt tm).length
          = limit + 1
            - max ((tm.filter (fun m => decide (m.count = minCountOf tm))).length - 1) 1 ∧
      (∃ m ∈ rebuild_top_merchants limit key name cnt tm,
          m.merchant_id = key ∧ m.count = cnt) ∧
      (∀ m ∈ tm, minCountOf tm < m.count →
          m ∈ rebuild_top_merchants limit key name cnt tm)) ∧
    (cnt ≤ minCountOf tm →
      ∀ x : TopMerchant, x ∈ rebuild_top_merchants limit key name cnt tm ↔ x ∈ tm) := by
  have hne : tm ≠ [] := by
    intro h
    rw [h] at hlen
    simp at hlen
    omega
  have hfind : ¬ (tm.find? (fun m => m.merchant_id = key)).isSome = true := by
    rw [List.find?_isSome]
    rintro ⟨x, hx, hpx⟩
    exact hkey x hx (by simpa using hpx)
  have hnlt : ¬ tm.length < limit := by omega
  have hndup : tm.Nodup := List.Nodup.of_map _ hnd
  obtain ⟨pre, suf, h1, h2, h3, h4⟩ :
      ∃ pre suf : List TopMerchant, pre ++ suf = tm ∧
        (∀ m ∈ pre, minCountOf tm < m.count) ∧
        (∀ m ∈ suf, m.count = minCountOf tm) ∧ suf ≠ [] := by
    refine ⟨tm.takeWhile (fun m => decide (minCountOf tm < m.count)),
            tm.dropWhile (fun m => decide (minCountOf tm < m.count)),
            List.takeWhile_append_dropWhile _ _, ?_, ?_, ?_⟩
    · intro m hm
      simpa using List.mem_takeWhile_imp hm
    · exact dropWhile_min_eq (minCountOf tm) tm hs (fun m hm => minCountOf_le hm)
    · obtain ⟨m0, hm0, hm0c⟩ := exists_minCountOf hne
      intro hnil
      have hm0' : m0 ∈ tm.takeWhile (fun m => decide (minCountOf tm < m.count))
          ++ tm.dropWhile (fun m => decide (minCountOf tm < m.count)) := by
        rw [List.takeWhile_append_dropWhile]
        exact hm0
      rcases List.mem_append.mp hm0' with h | h
      · have := List.mem_takeWhile_imp h
        simp only [decide_eq_true_eq] at this
        omega
      · rw [hnil] at h
        simp at h
  have hnd_suf : suf.Nodup := by
    have hap : (pre ++ suf).Nodup := by
      rw [h1]
      exact hndup
    exact List.Nodup.of_append_right hap
  have hlv? : suf.getLast? = some (suf.getLast h4) := List.getLast?_eq_getLast suf h4
  have htm? : tm.getLast? = some (suf.getLast h4) := by
    rw [← h1, List.getLast?_append, hlv?]
    rfl
  have hlv_mem : suf.getLast h4 ∈ suf := List.getLast_mem h4
  have hlv_count : (suf.getLast h4).count = minCountOf tm := h3 _ hlv_mem
  have hkept : tm.filter (fun m => decide (m.count > minCountOf tm ∨ some m = tm.getLast?))
      = pre ++ [suf.getLast h4] := by
    have e1 : tm.filter (fun m => decide (m.count > minCountOf tm ∨ some m = tm.getLast?))
        = pre.filter (fun m => decide (m.count > minCountOf tm ∨ some m = tm.getLast?))
          ++ suf.filter (fun m => decide (m.count > minCountOf tm ∨ some m = tm.getLast?)) := by
      rw [← List.filter_append, h1]
    rw [e1]
    congr 1
    · apply List.filter_eq_self.mpr
      intro a ha
      simp only [decide_eq_true_eq]
      exact Or.inl (h2 a ha)
    · have hcong : ∀ a ∈ suf,
          (decide (a.count > minCountOf tm ∨ some a = tm.getLast?))
            = (decide (a = suf.getLast h4)) := by
        intro a ha
        rw [htm?, decide_eq_decide]
        have hac := h3 a ha
        constructor
        · rintro (h | h)
          · omega
          · exact Option.some_injective _ h
        · intro h
          exact Or.inr (by rw [h])
      rw [List.filter_congr hcong]
      exact filter_eq_singleton_of_nodup hnd_suf hlv_mem
  have hk_suf : (tm.filter (fun m => decide (m.count = minCountOf tm))).length = suf.length := by
    have e1 : tm.filter (fun m => decide (m.count = minCountOf tm))
        = pre.filter (fun m => decide (m.count = minCountOf tm))
          ++ suf.filter (fun m => decide (m.count = minCountOf tm)) := by
      rw [← List.filter_append, h1]
    rw [e1, List.filter_eq_nil_iff.mpr (fun a ha => by
          simp only [decide_eq_true_eq]
          have := h2 a ha
          omega),
        List.filter_eq_self.mpr (fun a ha => by simp [h3 a ha])]
    simp
  have hlen_split : pre.length + suf.length = limit := by
    have hls := congrArg List.length h1
    simp only [List.length_append] at hls
    omega
  constructor
  · intro hcnt
    have hreb : rebuild_top_merchants limit key name cnt tm
        = sortDescBy (fun m => m.count)
            ((if (tm.filter (fun m =>
                  decide (m.count > minCountOf tm ∨ some m = tm.getLast?))).length ≥ limit
              then (tm.filter (fun m =>
                  decide (m.count > minCountOf tm ∨ some m = tm.getLast?))).eraseIdx
                    (argminCountIdx (tm.filter (fun m =>
                      decide (m.count > minCountOf tm ∨ some m = tm.getLast?))))
              else tm.filter (fun m =>
                  decide (m.count > minCountOf tm ∨ some m = tm.getLast?)))
            ++ [{ merchant_id := key, merchant_name := name, count := cnt }]) := by
      simp only [rebuild_top_merchants]
      rw [if_neg hfind, if_neg hnlt, if_pos (by omega : cnt > minCountOf tm)]
    by_cases hk1 : suf.length = 1
    · obtain ⟨a, ha⟩ := List.length_eq_one.mp hk1
      have hlast_a : suf.getLast h4 = a := by
        have hsome : some a = some (suf.getLast h4) := by
          rw [← hlv?, ha]
          rfl
        exact (Option.some_injective _ hsome).symm
      have hkept_tm : pre ++ [suf.getLast h4] = tm := by
        rw [hlast_a, ← ha]
        exact h1
      have hargmin : argminCountIdx tm = pre.length := by
        unfold argminCountIdx
        have hCeq : minCountOf (pre ++ [suf.getLast h4]) = minCountOf tm := by
          rw [hkept_tm]
        conv_lhs => rw [← hkept_tm]
        apply findIdx_append_singleton
        · intro m hm
          simp only [decide_eq_false_iff_not]
          rw [hCeq]
          have := h2 m hm
          omega
        · simp only [decide_eq_true_eq]
          rw [hCeq, hlv_count]
      have hlen_ge : tm.length ≥ limit := by omega
      have hfinal : rebuild_top_merchants limit key name cnt tm
          = sortDescBy (fun m => m.count)
              (pre ++ [{ merchant_id := key, merchant_name := name, count := cnt }]) := by
        rw [hreb]
        congr 1
        rw [hkept, hkept_tm, if_pos hlen_ge, hargmin, ← hkept_tm]
        rw [eraseIdx_append_singleton]
      refine ⟨?_, ?_, ?_⟩
      · rw [hfinal, length_sortDescBy, hk_suf, hk1]
        have hmax : max (1 - 1) 1 = 1 := by norm_num
        rw [hmax]
        simp only [List.length_append, List.length_singleton]
        omega
      · rw [hfinal]
        exact ⟨{ merchant_id := key, merchant_name := name, count := cnt },
          mem_sortDescBy.mpr (List.mem_append_right _ (by simp)), rfl, rfl⟩
      · intro m hm hmc
        rw [hfinal]
        apply mem_sortDescBy.mpr
        apply List.mem_append_left
        have hm' : m ∈ pre ++ suf := by
          rw [h1]
          exact hm
        rcases List.mem_append.mp hm' with h | h
        · exact h
        · exact absurd (h3 m h) (by omega)
    · have hk2 : 2 ≤ suf.length := by
        have h0 : suf.length ≠ 0 := fun hz => h4 (List.length_eq_zero.mp hz)
        omega
      have hfinal : rebuild_top_merchants limit key name cnt tm
          = sortDescBy (fun m => m.count)
              ((pre ++ [suf.getLast h4])
                ++ [{ merchant_id := key, merchant_name := name, count := cnt }]) := by
        rw [hreb]
        congr 1
        rw [hkept]
        rw [if_neg (by
          simp only [List.length_append, List.length_singleton]
          omega)]
      refine ⟨?_, ?_, ?_⟩
      · rw [hfinal, length_sortDescBy, hk_suf]
        simp only [List.length_append, List.length_singleton]
        rw [Nat.max_eq_left (by omega : 1 ≤ suf.length - 1)]
        omega
      · rw [hfinal]
        exact ⟨{ merchant_id := key, merchant_name := name, count := cnt },
          mem_sortDescBy.mpr (List.mem_append_right _ (by simp)), rfl, rfl⟩
      · intro m hm hmc
        rw [hfinal]
        apply mem_sortDescBy.mpr
        apply List.mem_append_left
        apply List.mem_append_left
        have hm' : m ∈ pre ++ suf := by
          rw [h1]
          exact hm
        rcases List.mem_append.mp hm' with h | h
        · exact h
        · exact absurd (h3 m h) (by omega)
  · intro hle
    have hreb2 : rebuild_top_merchants limit key name cnt tm
        = sortDescBy (fun m => m.count) tm := by
      simp only [rebuild_top_merchants]
      rw [if_neg hfind, if_neg hnlt, if_neg (by omega : ¬ cnt > minCountOf tm)]
    intro x
    rw [hreb2]
    exact mem_sortDescBy

/-- A one-merchant transaction for the C2 scenario. -/
def c2Txn (i : String) (mid : String) : ProcessedTransaction :=
  { id := i, amount := 5, timestamp := 0, merchant_name := mid, merchant_id := some mid,
    taste_category := "coffee", time_bucket := "morning", day_type := "weekday" }

/-- With the limit configured to 3: merchants A, B, C fill the list with
count 1 each; D's first visit is rejected (count 1 does not beat the
minimum); before D's second visit the list is full and D is absent. -/
def c2Before : UserAnalysis :=
  ingestAll 3 [c2Txn "1" "A", c2Txn "2" "B", c2Txn "3" "C", c2Txn "4" "D"] (freshAnalysis "u")

/-- The state after D's second visit (count 2, exceeding the minimum 1). -/
def c2After : UserAnalysis := ingest 3 (c2Txn "5" "D") c2Before

/-- C2 counterexample: before the fifth ingest the claim's premises hold —
the list is full at the configured limit 3, merchant D is absent, and D's
new count 2 exceeds the minimum count 1 — yet the update removes BOTH
remaining minimum-count entries A and B (only the final one, C, survives
the filter), so two entries are evicted instead of exactly one and the
list shrinks to length 2. -/
theorem C2_top_merchants_eviction_counterexample :
    c2Before.top_merchants.length = 3 ∧
    (c2Before.top_merchants.find? (fun m => m.merchant_id = "D")).isSome = false ∧
    dictGetD "D" 0 c2Before.merchant_visits + 1 > minCountOf c2Before.top_merchants ∧
    c2After.top_merchants.length = 2 ∧
    (c2After.top_merchants.find? (fun m => m.merchant_id = "A")).isSome = false ∧
    (c2After.top_merchants.find? (fun m => m.merchant_id = "B")).isSome = false ∧
    (c2After.top_merchants.find? (fun m => m.merchant_id = "C")).isSome = true ∧
    (c2After.top_merchants.find? (fun m => m.merchant_id = "D")).isSome = true :=
  ⟨rfl, rfl, by decide, rfl, rfl, rfl, rfl, rfl⟩

/-- The two-entry sorted list used to witness the amended C2 theorem. -/
def c2WitnessList : List TopMerchant :=
  [{ merchant_id := "A", merchant_name := "A", count := 2 },
   { merchant_id := "B", merchant_name := "B", count := 1 }]

/-- Witness for the amended C2 theorem at limit 2 with a unique minimum
(`k = 1`): exactly one entry is removed and the new merchant appended. -/
theorem C2_top_merchants_eviction_amended_witness :
    (rebuild_top_merchants 2 "C" "C" 5 c2WitnessList).length
      = 2 + 1 - max ((c2WitnessList.filter
          (fun m => decide (m.count = minCountOf c2WitnessList))).length - 1) 1 ∧
    (∃ m ∈ rebuild_top_merchants 2 "C" "C" 5 c2WitnessList,
        m.merchant_id = "C" ∧ m.count = 5) := by
  have h := (C2_top_merchants_eviction_amended 2 (by norm_num) c2WitnessList "C" "C" 5
    (by decide) (by decide) (by decide)
    (by intro m hm; fin_cases hm <;> decide)).1 (by decide)
  exact ⟨h.1, h.2.1⟩

end Ceezaa
